import Mathlib

/-!
GoReact-Users-Manager: the user CRUD handlers of `main.go`.

A shallow embedding of the request handlers of `src/main.go` (`getUsers`,
`getUser`, `createUser`, `updateUser`, `deleteUser`), of the validation helpers
they call (`strings.TrimSpace`, `isValidEmail` with `emailRegex`,
`strconv.Atoi`) and of the `users` table the SQL statements act on.

Conventions.
* A Go `string` that holds text is a Lean `String` (a sequence of Unicode code
  points); `encoding/json` only produces valid UTF-8, and `strconv.Atoi`
  rejects every byte that is not an ASCII sign or digit.
* A Go `int` is an `Int`; the platform is taken to be 64-bit (`intSize`), which
  only matters for the range check of `strconv.Atoi`.
* The decoded request body is an input of the handlers: `none` when
  `json.NewDecoder(r.Body).Decode(&u)` returns an error, `some u` otherwise.
* The database is explicit state: the rows of `users`, the last value of the
  `SERIAL` sequence, the journal of statements sent, and the server log.  The
  driver may fail any call; which calls fail and with what detail is the input
  `Driver`.
-/

namespace UsersManager

/-! ## Strings: `unicode.IsSpace`, `strings.TrimSpace` -/

/-- Go `unicode.IsSpace`: the Unicode White_Space property. In Latin-1 these are
`\t`, `\n`, `\v`, `\f`, `\r`, space, U+0085 and U+00A0; beyond it the table
`unicode.White_Space`. -/
def isSpace (c : Char) : Bool :=
  let n := c.toNat
  (0x09 ≤ n && n ≤ 0x0D) || n == 0x20 || n == 0x85 || n == 0xA0 ||
  n == 0x1680 || (0x2000 ≤ n && n ≤ 0x200A) || n == 0x2028 || n == 0x2029 ||
  n == 0x202F || n == 0x205F || n == 0x3000

/-- The characters left after removing the leading and the trailing run of
`isSpace` characters. -/
def trimChars (s : List Char) : List Char :=
  (s.dropWhile isSpace).rdropWhile isSpace

/-- Go `strings.TrimSpace`. -/
def TrimSpace (s : String) : String := ⟨trimChars s.data⟩

/-! ## Regular expressions: the fragment of `regexp` that `emailRegex` uses -/

/-- Regular expression trees: the operators `emailRegex` is built from, and the
ones its derivatives need. -/
inductive Regex where
  | noMatch : Regex
  | emptyMatch : Regex
  | charClass : (Char → Bool) → Regex
  | concat : Regex → Regex → Regex
  | alternate : Regex → Regex → Regex
  | star : Regex → Regex
  | plus : Regex → Regex

namespace Regex

/-- Whether the expression matches the empty text. -/
def nullable : Regex → Bool
  | noMatch => false
  | emptyMatch => true
  | charClass _ => false
  | concat r s => r.nullable && s.nullable
  | alternate r s => r.nullable || s.nullable
  | star _ => true
  | plus r => r.nullable

/-- Brzozowski derivative: what is left to match after reading `c`. -/
def deriv : Regex → Char → Regex
  | noMatch, _ => noMatch
  | emptyMatch, _ => noMatch
  | charClass p, c => if p c then emptyMatch else noMatch
  | concat r s, c =>
    if r.nullable then alternate (concat (r.deriv c) s) (s.deriv c)
    else concat (r.deriv c) s
  | alternate r s, c => alternate (r.deriv c) (s.deriv c)
  | star r, c => concat (r.deriv c) (star r)
  | plus r, c => concat (r.deriv c) (star r)

/-- Whether the whole text matches the expression. -/
def fullMatch : Regex → List Char → Bool
  | r, [] => r.nullable
  | r, c :: cs => fullMatch (r.deriv c) cs

/-- The language of an expression, denotationally. -/
def Matches : Regex → List Char → Prop
  | noMatch, _ => False
  | emptyMatch, s => s = []
  | charClass p, s => ∃ c, p c = true ∧ s = [c]
  | concat r₁ r₂, s => ∃ a b, s = a ++ b ∧ Matches r₁ a ∧ Matches r₂ b
  | alternate r₁ r₂, s => Matches r₁ s ∨ Matches r₂ s
  | star r, s => ∃ parts : List (List Char), s = parts.flatten ∧ ∀ x ∈ parts, Matches r x
  | plus r, s => ∃ a, ∃ parts : List (List Char),
      s = a ++ parts.flatten ∧ Matches r a ∧ ∀ x ∈ parts, Matches r x

end Regex

/-- The class `\s` of Go regular expressions (RE2 syntax): `[\t\n\f\r ]`. -/
def perlSpace (c : Char) : Bool :=
  c == '\t' || c == '\n' || c == '\x0c' || c == '\r' || c == ' '

/-- The class `[^\s@]`. -/
def notSpaceNotAt (c : Char) : Bool := !(perlSpace c || c == '@')

/-- The pattern between the anchors of
`regexp.MustCompile("^[^\s@]+@[^\s@]+\.[^\s@]+$")`. -/
def emailRegex : Regex :=
  .concat (.plus (.charClass notSpaceNotAt))
    (.concat (.charClass (fun c => c == '@'))
      (.concat (.plus (.charClass notSpaceNotAt))
        (.concat (.charClass (fun c => c == '.'))
          (.plus (.charClass notSpaceNotAt)))))

/-- The method `emailRegex.MatchString`: the pattern starts with `^` and ends with `$`
(no multi-line flag), so a match is a match of the whole text. -/
def MatchString (re : Regex) (s : String) : Bool := re.fullMatch s.data

/-- Validates the email string against the regex (`main.go`, `isValidEmail`). -/
def isValidEmail (email : String) : Bool := MatchString emailRegex email


/-! ## `strconv.Atoi` -/

/-- The size in bits of a Go `int` on the platform. -/
def intSize : Nat := 64

/-- The value of an ASCII decimal digit. -/
def digitVal (c : Char) : Option Nat :=
  if '0' ≤ c ∧ c ≤ '9' then some (c.toNat - '0'.toNat) else none

/-- The digit loop of `strconv.Atoi`: `n = n*10 + int(ch)`, failing on the first
character that is not a decimal digit. -/
def parseDigits : List Char → Nat → Option Nat
  | [], n => some n
  | c :: cs, n =>
    match digitVal c with
    | none => none
    | some d => parseDigits cs (n * 10 + d)

/-- Go `strconv.Atoi`, with `none` for a returned error. The text must not be empty;
a leading `-` or `+` is taken off and must leave something; what is left must be
decimal digits only; the signed value must fit an `int`. -/
def Atoi (s : String) : Option Int :=
  match s.data with
  | [] => none
  | c :: rest =>
    match (if c = '-' ∨ c = '+' then rest else c :: rest) with
    | [] => none
    | d :: ds =>
      match parseDigits (d :: ds) 0 with
      | none => none
      | some n =>
        let v : Int := if c = '-' then -(n : Int) else (n : Int)
        if -(2 : Int) ^ (intSize - 1) ≤ v ∧ v ≤ (2 : Int) ^ (intSize - 1) - 1 then some v
        else none

/-- The character of a decimal digit. -/
def digitChar (d : Nat) : Char := Char.ofNat ('0'.toNat + d)

/-- The decimal digits of `n`, most significant first, put in front of `acc`; `fuel`
bounds their number. -/
def formatDigits : Nat → Nat → List Char → List Char
  | 0, _, acc => acc
  | fuel + 1, n, acc =>
    if n < 10 then digitChar n :: acc
    else formatDigits fuel (n / 10) (digitChar (n % 10) :: acc)

/-- The decimal text of an integer, as a client writes an id into the path
`/users/{id}` (Go `strconv.Itoa`). -/
def Itoa (i : Int) : String :=
  if i < 0 then ⟨'-' :: formatDigits (i.natAbs + 1) i.natAbs []⟩
  else ⟨formatDigits (i.natAbs + 1) i.natAbs []⟩

/-! ## The data model and the `users` table -/

/-- The user model stored in the database (`main.go`, `type User`). -/
structure User where
  ID : Int
  Name : String
  Email : String
  deriving DecidableEq, Repr

/-- The SQL statements the handlers send, with their parameters. -/
inductive Stmt where
  /-- Statement `SELECT id, name, email FROM users` -/
  | selectAll : Stmt
  /-- Statement `SELECT id, name, email FROM users WHERE id = $1` -/
  | selectById (id : Int) : Stmt
  /-- Statement `INSERT INTO users (name, email) VALUES ($1, $2) RETURNING id` -/
  | insert (name email : String) : Stmt
  /-- Statement `UPDATE users SET name = $1, email = $2 WHERE id = $3` -/
  | update (name email : String) (id : Int) : Stmt
  /-- Statement `DELETE FROM users WHERE id = $1` -/
  | delete (id : Int) : Stmt
  deriving DecidableEq, Repr

/-- The table created at startup,
`users (id SERIAL PRIMARY KEY, name TEXT NOT NULL, email TEXT NOT NULL)`:
its rows in storage order, and the last value its id sequence handed out. -/
structure DB where
  rows : List User
  lastval : Nat
  deriving DecidableEq, Repr

/-- The largest value of a `SERIAL` (32-bit) column and of its sequence. -/
def maxSerial : Nat := 2147483647

/-- The places where a handler calls the driver (`database/sql`). -/
inductive Call where
  /-- The call `db.Query` in `getUsers` -/
  | usersQuery : Call
  /-- The call `rows.Scan` in `getUsers`, on the row of the given index -/
  | usersScan (i : Nat) : Call
  /-- The call `rows.Err` in `getUsers` -/
  | usersErr : Call
  /-- The call `db.QueryRow(...).Scan` in `getUser` -/
  | userQueryRow : Call
  /-- The call `db.QueryRow(...).Scan` in `createUser` -/
  | createQueryRow : Call
  /-- The call `db.Exec` in `updateUser` -/
  | updateExec : Call
  /-- The call `result.RowsAffected` in `updateUser` -/
  | updateRowsAffected : Call
  /-- The call `db.QueryRow(...).Scan` in `deleteUser` -/
  | deleteQueryRow : Call
  /-- The call `db.Exec` in `deleteUser` -/
  | deleteExec : Call
  deriving DecidableEq, Repr

/-- The failures of the driver during one request: for each call, `none` when it
goes through and `some detail` when it returns an error with that text. -/
abbrev Driver := Call → Option String

/-- An `error` returned by `database/sql`. -/
inductive SqlError where
  /-- The error `sql.ErrNoRows` -/
  | ErrNoRows : SqlError
  /-- any other error, with its text -/
  | other (detail : String) : SqlError
  deriving DecidableEq, Repr

/-- What a handler runs against: the table, the driver's failures, the statements
sent so far (oldest first) and the lines logged so far. -/
structure State where
  db : DB
  drv : Driver
  stmts : List Stmt
  log : List String

namespace State

/-- Records a statement as sent. -/
def send (st : State) (q : Stmt) : State := { st with stmts := st.stmts ++ [q] }

/-- Go `log.Printf(format + ": %v", err)`. -/
def logf (st : State) (what detail : String) : State :=
  { st with log := st.log ++ [what ++ ": " ++ detail] }

/-- The call `db.Query("SELECT id, name, email FROM users")`: the rows to iterate over. -/
def querySelectAll (st : State) : Except String (List User) × State :=
  match st.drv .usersQuery with
  | some e => (.error e, st.send .selectAll)
  | none => (.ok st.db.rows, st.send .selectAll)

/-- The call `db.QueryRow("SELECT id, name, email FROM users WHERE id = $1", id).Scan(...)`:
the first matching row, `sql.ErrNoRows` when there is none. -/
def queryRowById (st : State) (site : Call) (id : Int) : Except SqlError User × State :=
  match st.drv site with
  | some e => (.error (.other e), st.send (.selectById id))
  | none =>
    match st.db.rows.find? (fun r => r.ID == id) with
    | some r => (.ok r, st.send (.selectById id))
    | none => (.error .ErrNoRows, st.send (.selectById id))

/-- The call `db.QueryRow("INSERT INTO users (name, email) VALUES ($1, $2) RETURNING id",
name, email).Scan(&u.ID)`: the id is the next value of the sequence; the sequence
fails past `maxSerial`, and the primary key refuses an id already present (the
sequence keeps the value it handed out). -/
def insertReturningId (st : State) (name email : String) : Except String Int × State :=
  let st' := st.send (.insert name email)
  match st.drv .createQueryRow with
  | some e => (.error e, st')
  | none =>
    let id := st.db.lastval + 1
    if maxSerial < id then
      (.error "nextval: reached maximum value of sequence \"users_id_seq\"", st')
    else if st.db.rows.any (fun r => r.ID == (id : Int)) then
      (.error "duplicate key value violates unique constraint \"users_pkey\"",
        { st' with db := { st.db with lastval := id } })
    else
      (.ok (id : Int),
        { st' with db := { rows := st.db.rows ++ [⟨(id : Int), name, email⟩], lastval := id } })

/-- The call `db.Exec("UPDATE users SET name = $1, email = $2 WHERE id = $3", name, email, id)`:
the result carries the number of rows matched. -/
def execUpdate (st : State) (name email : String) (id : Int) : Except String Nat × State :=
  let st' := st.send (.update name email id)
  match st.drv .updateExec with
  | some e => (.error e, st')
  | none =>
    (.ok (st.db.rows.countP (fun r => r.ID == id)),
      { st' with db := { st.db with
          rows := st.db.rows.map
            (fun r => if r.ID == id then { r with Name := name, Email := email } else r) } })

/-- The call `db.Exec("DELETE FROM users WHERE id = $1", id)`. -/
def execDelete (st : State) (id : Int) : Except String Unit × State :=
  let st' := st.send (.delete id)
  match st.drv .deleteExec with
  | some e => (.error e, st')
  | none =>
    (.ok (), { st' with db := { st.db with rows := st.db.rows.filter (fun r => !(r.ID == id)) } })

end State

/-! ## Responses -/

/-- The JSON document written by `json.NewEncoder(w).Encode`. -/
inductive Body where
  /-- The object `{"error": msg}` -/
  | error (msg : String) : Body
  /-- The object `{"message": msg}` -/
  | message (msg : String) : Body
  /-- a user object `{"id": .., "name": .., "email": ..}` -/
  | user (u : User) : Body
  /-- an array of user objects -/
  | users (us : List User) : Body
  deriving DecidableEq, Repr

/-- The status code of `w.WriteHeader` and the body that follows. -/
structure Response where
  status : Nat
  body : Body
  deriving DecidableEq, Repr

/-! ## The handlers -/

/-- The loop `for rows.Next() { rows.Scan(...); users = append(users, u) }` of
`getUsers`, from the row of index `i` on. -/
def scanUsers (drv : Driver) : List User → Nat → List User → Except String (List User)
  | [], _, users => .ok users
  | r :: rest, i, users =>
    match drv (.usersScan i) with
    | some e => .error e
    | none => scanUsers drv rest (i + 1) (users ++ [r])

/-- Handler of `GET /users` (`main.go`, `getUsers`). -/
def getUsers (st : State) : Response × State :=
  match st.querySelectAll with
  | (.error e, st₁) =>
    (⟨500, .error "Error querying users"⟩, st₁.logf "Error querying users" e)
  | (.ok rows, st₁) =>
    match scanUsers st₁.drv rows 0 [] with
    | .error e => (⟨500, .error "Error reading users"⟩, st₁.logf "Error scanning user" e)
    | .ok users =>
      match st₁.drv .usersErr with
      | some e =>
        (⟨500, .error "Error iterating users"⟩, st₁.logf "Error iterating over users" e)
      | none => (⟨200, .users users⟩, st₁)

/-- Handler of `GET /users/{id}` (`main.go`, `getUser`); `idStr` is the path variable. -/
def getUser (st : State) (idStr : String) : Response × State :=
  match Atoi idStr with
  | none => (⟨400, .error "Invalid user ID"⟩, st)
  | some id =>
    if id ≤ 0 then (⟨400, .error "Invalid user ID"⟩, st)
    else
      match st.queryRowById .userQueryRow id with
      | (.error .ErrNoRows, st₁) => (⟨404, .error "User not found"⟩, st₁)
      | (.error (.other e), st₁) =>
        (⟨500, .error "Internal server error"⟩, st₁.logf "Error querying user" e)
      | (.ok u, st₁) => (⟨200, .user u⟩, st₁)

/-- Handler of `POST /users` (`main.go`, `createUser`); `body` is the result of
decoding the request body into a `User`. -/
def createUser (st : State) (body : Option User) : Response × State :=
  match body with
  | none => (⟨400, .error "Invalid JSON body"⟩, st)
  | some u =>
    if (TrimSpace u.Name).utf8ByteSize = 0 then (⟨400, .error "Name cannot be empty"⟩, st)
    else if !isValidEmail (TrimSpace u.Email) then
      (⟨400, .error "Invalid email format"⟩, st)
    else
      match st.insertReturningId u.Name u.Email with
      | (.error e, st₁) =>
        (⟨500, .error "Database insert error"⟩, st₁.logf "Error inserting user" e)
      | (.ok id, st₁) => (⟨201, .user { u with ID := id }⟩, st₁)

/-- Handler of `PUT /users/{id}` (`main.go`, `updateUser`). -/
def updateUser (st : State) (body : Option User) (idStr : String) : Response × State :=
  match body with
  | none => (⟨400, .error "Invalid JSON body"⟩, st)
  | some u =>
    if TrimSpace u.Name = "" then (⟨400, .error "Name cannot be empty"⟩, st)
    else if !isValidEmail (TrimSpace u.Email) then
      (⟨400, .error "Invalid email format"⟩, st)
    else
      match Atoi idStr with
      | none => (⟨400, .error "Invalid user ID"⟩, st)
      | some id =>
        if id ≤ 0 then (⟨400, .error "Invalid user ID"⟩, st)
        else
          match st.execUpdate u.Name u.Email id with
          | (.error e, st₁) =>
            (⟨500, .error "Error updating user"⟩, st₁.logf "Error updating user" e)
          | (.ok rowsAffected, st₁) =>
            match st₁.drv .updateRowsAffected with
            | some e =>
              (⟨500, .error "Error updating user"⟩, st₁.logf "Error checking rows affected" e)
            | none =>
              if rowsAffected = 0 then (⟨404, .error "User not found"⟩, st₁)
              else (⟨200, .user u⟩, st₁)

/-- Handler of `DELETE /users/{id}` (`main.go`, `deleteUser`). -/
def deleteUser (st : State) (idStr : String) : Response × State :=
  match Atoi idStr with
  | none => (⟨400, .error "Invalid user ID"⟩, st)
  | some id =>
    if id ≤ 0 then (⟨400, .error "Invalid user ID"⟩, st)
    else
      match st.queryRowById .deleteQueryRow id with
      | (.error .ErrNoRows, st₁) => (⟨404, .error "User not found"⟩, st₁)
      | (.error (.other e), st₁) =>
        (⟨500, .error "Internal server error"⟩, st₁.logf "Error querying user before delete" e)
      | (.ok _, st₁) =>
        match st₁.execDelete id with
        | (.error e, st₂) =>
          (⟨500, .error "Error deleting user"⟩, st₂.logf "Error deleting user" e)
        | (.ok _, st₂) => (⟨200, .message "User deleted successfully"⟩, st₂)

/-- A driver that fails no call. -/
def noFault : Driver := fun _ => none

/-- A state over the given table with nothing sent or logged yet. -/
def State.start (db : DB) (drv : Driver) : State := ⟨db, drv, [], []⟩

/-! ## Properties the handlers are checked against -/

/-- The text has the form `L@D.T` where `L`, `D` and `T` are non-empty and hold no
character of the class `ws` and no `@`. -/
def HasEmailShape (ws : Char → Bool) (s : String) : Prop :=
  ∃ L D T : String, s = L ++ "@" ++ D ++ "." ++ T ∧ L ≠ "" ∧ D ≠ "" ∧ T ≠ "" ∧
    ∀ c ∈ L.data ++ D.data ++ T.data, ws c = false ∧ c ≠ '@'

/-- The text with its leading and its trailing run of `ws` characters removed;
`strings.TrimSpace` is `trimBy isSpace`. -/
def trimBy (ws : Char → Bool) (s : String) : String :=
  ⟨(s.data.dropWhile ws).rdropWhile ws⟩

/-- The email check as worded with one class `ws` of whitespace characters: the
handlers accept `e` exactly when `e`, trimmed of `ws`, has the form `L@D.T` with
parts free of `ws` and of `@`. -/
def EmailCheckWorded (ws : Char → Bool) (e : String) : Prop :=
  isValidEmail (TrimSpace e) = true ↔ HasEmailShape ws (trimBy ws e)

/-- The text consists of whitespace only (it may be empty). -/
def Blank (s : String) : Prop := ∀ c ∈ s.data, isSpace c = true

instance (s : String) : Decidable (Blank s) := by
  unfold Blank
  infer_instance

/-- The invariant of the data model as worded: ids are unique, every stored name is
trimmed (equal to its own trim) and not empty, every stored email matches the
pattern. -/
def TrimmedInvariant (db : DB) : Prop :=
  (db.rows.map (fun r => r.ID)).Nodup ∧
    ∀ r ∈ db.rows, TrimSpace r.Name = r.Name ∧ r.Name ≠ "" ∧ isValidEmail r.Email = true

instance (db : DB) : Decidable (TrimmedInvariant db) := by
  unfold TrimmedInvariant
  infer_instance

/-- The invariant the handlers keep: ids are unique, every stored name is non-empty
after trimming, every stored email matches the pattern after trimming. -/
def StoredInvariant (db : DB) : Prop :=
  (db.rows.map (fun r => r.ID)).Nodup ∧
    ∀ r ∈ db.rows, TrimSpace r.Name ≠ "" ∧ isValidEmail (TrimSpace r.Email) = true

instance (db : DB) : Decidable (StoredInvariant db) := by
  unfold StoredInvariant
  infer_instance

/-- The path variable is refused as an id: `strconv.Atoi` returns an error, or a
value that is not positive. -/
def InvalidUserID (idStr : String) : Prop :=
  Atoi idStr = none ∨ ∃ id, Atoi idStr = some id ∧ id ≤ 0

/-- Two drivers fail the same calls; the error texts may differ. -/
def SameFailures (d₁ d₂ : Driver) : Prop := ∀ c, (d₁ c).isSome = (d₂ c).isSome

/-! ## The derivative matcher computes the language -/

namespace Regex

theorem nullable_iff (r : Regex) : r.nullable = true ↔ Matches r [] := by
  induction r with
  | noMatch => simp [nullable, Matches]
  | emptyMatch => simp [nullable, Matches]
  | charClass p => simp [nullable, Matches]
  | concat r s ihr ihs =>
    simp only [nullable, Matches, Bool.and_eq_true, ihr, ihs]
    constructor
    · rintro ⟨h1, h2⟩
      exact ⟨[], [], rfl, h1, h2⟩
    · rintro ⟨a, b, hab, h1, h2⟩
      have h := List.append_eq_nil.mp hab.symm
      rw [h.1] at h1
      rw [h.2] at h2
      exact ⟨h1, h2⟩
  | alternate r s ihr ihs => simp [nullable, Matches, ihr, ihs]
  | star r _ =>
    simp only [nullable, Matches, true_iff]
    exact ⟨[], rfl, by simp⟩
  | plus r ih =>
    simp only [nullable, Matches, ih]
    constructor
    · intro h
      exact ⟨[], [], rfl, h, by simp⟩
    · rintro ⟨a, parts, hab, h1, _⟩
      have h := List.append_eq_nil.mp hab.symm
      rw [h.1] at h1
      exact h1

/-- A non-empty text in the language of `star r` starts with a non-empty piece. -/
theorem star_cons (r : Regex) (c : Char) (s : List Char) :
    Matches (star r) (c :: s) ↔
      ∃ a b, s = a ++ b ∧ Matches r (c :: a) ∧ Matches (star r) b := by
  constructor
  · rintro ⟨parts, hs, hp⟩
    induction parts with
    | nil => simp at hs
    | cons x rest ih =>
      cases x with
      | nil =>
        apply ih
        · simpa using hs
        · intro y hy
          exact hp y (List.mem_cons_of_mem _ hy)
      | cons d a =>
        simp only [List.flatten_cons, List.cons_append, List.cons.injEq] at hs
        obtain ⟨hc, hs⟩ := hs
        subst hc
        refine ⟨a, rest.flatten, hs, hp _ (List.mem_cons_self _ _), rest, rfl, ?_⟩
        intro y hy
        exact hp y (List.mem_cons_of_mem _ hy)
  · rintro ⟨a, b, hs, ha, parts, hb, hp⟩
    refine ⟨(c :: a) :: parts, by simp [hs, hb], ?_⟩
    intro y hy
    rcases List.mem_cons.mp hy with h | h
    · rw [h]
      exact ha
    · exact hp y h

theorem plus_cons (r : Regex) (c : Char) (s : List Char) :
    Matches (plus r) (c :: s) ↔
      ∃ a b, s = a ++ b ∧ Matches r (c :: a) ∧ Matches (star r) b := by
  constructor
  · rintro ⟨a, parts, hs, ha, hp⟩
    cases a with
    | nil =>
      exact (star_cons r c s).mp ⟨parts, by simpa using hs, hp⟩
    | cons d a =>
      simp only [List.cons_append, List.cons.injEq] at hs
      obtain ⟨hc, hs⟩ := hs
      subst hc
      exact ⟨a, parts.flatten, hs, ha, parts, rfl, hp⟩
  · rintro ⟨a, b, hs, ha, parts, hb, hp⟩
    exact ⟨c :: a, parts, by simp [hs, hb], ha, hp⟩

theorem deriv_iff (r : Regex) (c : Char) (s : List Char) :
    Matches (r.deriv c) s ↔ Matches r (c :: s) := by
  induction r generalizing s with
  | noMatch => simp [deriv, Matches]
  | emptyMatch => simp [deriv, Matches]
  | charClass p =>
    by_cases hp : p c = true
    · simp only [deriv, hp, if_true, Matches]
      constructor
      · intro h
        exact ⟨c, hp, by rw [h]⟩
      · rintro ⟨d, _, hd⟩
        simp only [List.cons.injEq] at hd
        exact hd.2
    · simp only [deriv, hp, Matches, Bool.false_eq_true, if_false, false_iff]
      rintro ⟨d, hd, hcd⟩
      simp only [List.cons.injEq] at hcd
      rw [← hcd.1] at hd
      exact hp hd
  | concat r₁ r₂ ih₁ ih₂ =>
    have key : Matches (concat r₁ r₂) (c :: s) ↔
        (∃ a b, s = a ++ b ∧ Matches r₁ (c :: a) ∧ Matches r₂ b) ∨
          (Matches r₁ [] ∧ Matches r₂ (c :: s)) := by
      constructor
      · rintro ⟨a, b, hab, ha, hb⟩
        cases a with
        | nil =>
          right
          simp only [List.nil_append] at hab
          rw [hab]
          exact ⟨ha, hb⟩
        | cons d a =>
          left
          simp only [List.cons_append, List.cons.injEq] at hab
          obtain ⟨hc, hs⟩ := hab
          subst hc
          exact ⟨a, b, hs, ha, hb⟩
      · rintro (⟨a, b, hs, ha, hb⟩ | ⟨ha, hb⟩)
        · exact ⟨c :: a, b, by simp [hs], ha, hb⟩
        · exact ⟨[], c :: s, rfl, ha, hb⟩
    rw [key]
    by_cases hn : r₁.nullable = true
    · have hn' := (nullable_iff r₁).mp hn
      simp only [deriv, hn, if_true, Matches, ih₁, ih₂]
      constructor
      · rintro (h | h)
        · exact Or.inl h
        · exact Or.inr ⟨hn', h⟩
      · rintro (h | h)
        · exact Or.inl h
        · exact Or.inr h.2
    · have hn' : ¬ Matches r₁ [] := fun h => hn ((nullable_iff r₁).mpr h)
      simp only [deriv, hn, Bool.false_eq_true, if_false, Matches, ih₁]
      constructor
      · intro h
        exact Or.inl h
      · rintro (h | h)
        · exact h
        · exact absurd h.1 hn'
  | alternate r₁ r₂ ih₁ ih₂ => simp only [deriv, Matches, ih₁, ih₂]
  | star r ih =>
    rw [star_cons]
    simp only [deriv, Matches, ih]
  | plus r ih =>
    rw [plus_cons]
    simp only [deriv, Matches, ih]

theorem fullMatch_iff (r : Regex) (s : List Char) : r.fullMatch s = true ↔ Matches r s := by
  induction s generalizing r with
  | nil => simpa [fullMatch] using nullable_iff r
  | cons c cs ih => rw [fullMatch, ih, deriv_iff]

end Regex

/-! ## Trimming -/

theorem trimChars_eq_nil_iff (s : List Char) :
    trimChars s = [] ↔ ∀ c ∈ s, isSpace c = true := by
  unfold trimChars
  rw [List.rdropWhile_eq_nil_iff]
  constructor
  · intro h
    have hnil : s.dropWhile isSpace = [] := by
      by_contra hne
      have hhead := List.head_dropWhile_not isSpace s hne
      have := h _ (List.head_mem hne)
      simp [this] at hhead
    exact List.dropWhile_eq_nil_iff.mp hnil
  · intro h c hc
    exact h c ((List.dropWhile_suffix isSpace).subset hc)

theorem utf8Len_eq_zero_iff (cs : List Char) : String.utf8Len cs = 0 ↔ cs = [] := by
  cases cs with
  | nil => simp
  | cons c cs =>
    have := c.utf8Size_pos
    simp only [String.utf8Len_cons, reduceCtorEq, iff_false]
    omega

theorem utf8ByteSize_eq_zero_iff (s : String) : s.utf8ByteSize = 0 ↔ s = "" := by
  cases s with
  | mk cs =>
    rw [String.utf8ByteSize_mk, utf8Len_eq_zero_iff, String.ext_iff]

theorem TrimSpace_eq_empty_iff (s : String) : TrimSpace s = "" ↔ Blank s := by
  unfold Blank
  rw [String.ext_iff, ← trimChars_eq_nil_iff]
  rfl

theorem rdropWhile_append_rtake (p : Char → Bool) (l : List Char) :
    l.rdropWhile p ++ l.rtakeWhile p = l := by
  unfold List.rdropWhile List.rtakeWhile
  rw [← List.reverse_append, List.takeWhile_append_dropWhile, List.reverse_reverse]

/-- The text splits into leading whitespace, the trimmed text and trailing whitespace. -/
theorem trimChars_split (s : List Char) :
    ∃ pre post, s = pre ++ trimChars s ++ post ∧
      (∀ c ∈ pre, isSpace c = true) ∧ ∀ c ∈ post, isSpace c = true := by
  refine ⟨s.takeWhile isSpace, (s.dropWhile isSpace).rtakeWhile isSpace, ?_, ?_, ?_⟩
  · unfold trimChars
    rw [List.append_assoc, rdropWhile_append_rtake, List.takeWhile_append_dropWhile]
  · intro c hc
    exact List.mem_takeWhile_imp hc
  · intro c hc
    exact List.mem_rtakeWhile_imp hc

/-! ## The language of `emailRegex` -/

theorem flatten_map_single (t : List Char) : (t.map (fun d => [d])).flatten = t := by
  induction t with
  | nil => rfl
  | cons d t ih => simp [ih]

theorem flatten_singles (p : Char → Bool) (parts : List (List Char))
    (h : ∀ x ∈ parts, Regex.Matches (.charClass p) x) : ∀ c ∈ parts.flatten, p c = true := by
  induction parts with
  | nil => simp
  | cons x rest ih =>
    intro c hc
    simp only [List.flatten_cons, List.mem_append] at hc
    rcases hc with hc | hc
    · obtain ⟨d, hd, hx⟩ := h x (List.mem_cons_self _ _)
      rw [hx, List.mem_singleton] at hc
      rw [hc]
      exact hd
    · exact ih (fun y hy => h y (List.mem_cons_of_mem _ hy)) c hc

theorem plus_charClass_iff (p : Char → Bool) (s : List Char) :
    Regex.Matches (.plus (.charClass p)) s ↔ s ≠ [] ∧ ∀ c ∈ s, p c = true := by
  constructor
  · rintro ⟨a, parts, hs, ⟨d, hd, ha⟩, hp⟩
    subst ha
    subst hs
    refine ⟨by simp, ?_⟩
    intro c hc
    simp only [List.singleton_append, List.mem_cons] at hc
    rcases hc with hc | hc
    · rw [hc]
      exact hd
    · exact flatten_singles p parts hp c hc
  · rintro ⟨hne, hall⟩
    cases s with
    | nil => exact absurd rfl hne
    | cons d t =>
      refine ⟨[d], t.map (fun e => [e]), by simp [flatten_map_single],
        ⟨d, hall d (List.mem_cons_self _ _), rfl⟩, ?_⟩
      intro x hx
      obtain ⟨e, he, hxe⟩ := List.mem_map.mp hx
      exact ⟨e, hall e (List.mem_cons_of_mem _ he), hxe.symm⟩

theorem emailRegex_matches_iff (s : List Char) :
    Regex.Matches emailRegex s ↔
      ∃ L D T : List Char, s = L ++ '@' :: (D ++ '.' :: T) ∧ L ≠ [] ∧ D ≠ [] ∧ T ≠ [] ∧
        (∀ c ∈ L, notSpaceNotAt c = true) ∧ (∀ c ∈ D, notSpaceNotAt c = true) ∧
          ∀ c ∈ T, notSpaceNotAt c = true := by
  unfold emailRegex
  constructor
  · rintro ⟨L, r₁, hs, hL, a, r₂, h₁, ⟨c₁, hc₁, ha⟩, D, r₃, h₂, hD, b, T, h₃, ⟨c₂, hc₂, hb⟩, hT⟩
    rw [plus_charClass_iff] at hL hD hT
    have e₁ : c₁ = '@' := by simpa using hc₁
    have e₂ : c₂ = '.' := by simpa using hc₂
    refine ⟨L, D, T, ?_, hL.1, hD.1, hT.1, hL.2, hD.2, hT.2⟩
    rw [hs, h₁, ha, h₂, h₃, hb, e₁, e₂]
    simp
  · rintro ⟨L, D, T, hs, hL, hD, hT, aL, aD, aT⟩
    exact ⟨L, '@' :: (D ++ '.' :: T), hs, (plus_charClass_iff _ _).mpr ⟨hL, aL⟩,
      ['@'], D ++ '.' :: T, rfl, ⟨'@', by simp, rfl⟩,
      D, '.' :: T, rfl, (plus_charClass_iff _ _).mpr ⟨hD, aD⟩,
      ['.'], T, rfl, ⟨'.', by simp, rfl⟩, (plus_charClass_iff _ _).mpr ⟨hT, aT⟩⟩

theorem notSpaceNotAt_iff (c : Char) :
    notSpaceNotAt c = true ↔ perlSpace c = false ∧ c ≠ '@' := by
  simp [notSpaceNotAt]

theorem isValidEmail_iff (s : String) :
    isValidEmail s = true ↔ HasEmailShape perlSpace s := by
  unfold isValidEmail MatchString HasEmailShape
  rw [Regex.fullMatch_iff, emailRegex_matches_iff]
  constructor
  · rintro ⟨L, D, T, hs, hL, hD, hT, aL, aD, aT⟩
    refine ⟨⟨L⟩, ⟨D⟩, ⟨T⟩, ?_, ?_, ?_, ?_, ?_⟩
    · rw [String.ext_iff, hs]
      simp
    · simpa [String.ext_iff] using hL
    · simpa [String.ext_iff] using hD
    · simpa [String.ext_iff] using hT
    · intro c hc
      simp only [List.mem_append] at hc
      rcases hc with (hc | hc) | hc
      · exact (notSpaceNotAt_iff c).mp (aL c hc)
      · exact (notSpaceNotAt_iff c).mp (aD c hc)
      · exact (notSpaceNotAt_iff c).mp (aT c hc)
  · rintro ⟨L, D, T, hs, hL, hD, hT, hall⟩
    refine ⟨L.data, D.data, T.data, ?_, ?_, ?_, ?_, ?_, ?_, ?_⟩
    · rw [hs]
      simp
    · simpa [String.ext_iff] using hL
    · simpa [String.ext_iff] using hD
    · simpa [String.ext_iff] using hT
    · intro c hc
      exact (notSpaceNotAt_iff c).mpr (hall c (by simp [hc]))
    · intro c hc
      exact (notSpaceNotAt_iff c).mpr (hall c (by simp [hc]))
    · intro c hc
      exact (notSpaceNotAt_iff c).mpr (hall c (by simp [hc]))

theorem count_at_of_shape (L D T : List Char)
    (hL : ∀ c ∈ L, c ≠ '@') (hD : ∀ c ∈ D, c ≠ '@') (hT : ∀ c ∈ T, c ≠ '@') :
    (L ++ '@' :: (D ++ '.' :: T)).count '@' = 1 := by
  have zL : L.count '@' = 0 := List.count_eq_zero.mpr (fun h => hL _ h rfl)
  have zD : D.count '@' = 0 := List.count_eq_zero.mpr (fun h => hD _ h rfl)
  have zT : T.count '@' = 0 := List.count_eq_zero.mpr (fun h => hT _ h rfl)
  have hdot : ('.' == '@') = false := by decide
  simp [List.count_append, List.count_cons, zL, zD, zT, hdot]

theorem count_at_of_spaces (l : List Char) (h : ∀ c ∈ l, isSpace c = true) :
    l.count '@' = 0 := by
  apply List.count_eq_zero.mpr
  intro hmem
  have := h _ hmem
  revert this
  decide

/-- An accepted email holds exactly one `@`, and a `.` somewhere after it. -/
theorem accepted_one_at (e : String) (h : isValidEmail (TrimSpace e) = true) :
    e.data.count '@' = 1 ∧ ∃ a b, e.data = a ++ '@' :: b ∧ '.' ∈ b := by
  unfold isValidEmail MatchString at h
  rw [Regex.fullMatch_iff, emailRegex_matches_iff] at h
  obtain ⟨L, D, T, hs, -, -, -, aL, aD, aT⟩ := h
  obtain ⟨pre, post, hsplit, hpre, hpost⟩ := trimChars_split e.data
  have hs' : trimChars e.data = L ++ '@' :: (D ++ '.' :: T) := hs
  rw [hs'] at hsplit
  have noAt : ∀ (X : List Char), (∀ c ∈ X, notSpaceNotAt c = true) → ∀ c ∈ X, c ≠ '@' :=
    fun X hX c hc => ((notSpaceNotAt_iff c).mp (hX c hc)).2
  constructor
  · rw [hsplit, List.count_append, List.count_append,
      count_at_of_shape L D T (noAt L aL) (noAt D aD) (noAt T aT),
      count_at_of_spaces pre hpre, count_at_of_spaces post hpost]
  · refine ⟨pre ++ L, D ++ '.' :: T ++ post, ?_, ?_⟩
    · rw [hsplit]
      simp
    · simp

/-! ## The store calls and the invariant -/

@[simp] theorem State.send_db (st : State) (q : Stmt) : (st.send q).db = st.db := rfl

@[simp] theorem State.send_drv (st : State) (q : Stmt) : (st.send q).drv = st.drv := rfl

@[simp] theorem State.logf_db (st : State) (a b : String) : (st.logf a b).db = st.db := rfl

@[simp] theorem State.logf_stmts (st : State) (a b : String) :
    (st.logf a b).stmts = st.stmts := rfl

theorem State.querySelectAll_db (st : State) : st.querySelectAll.2.db = st.db := by
  unfold State.querySelectAll
  split <;> rfl

theorem State.queryRowById_db (st : State) (site : Call) (id : Int) :
    (st.queryRowById site id).2.db = st.db := by
  unfold State.queryRowById
  split
  · rfl
  · split <;> rfl

theorem State.insertReturningId_inv (st : State) (name email : String)
    (h : StoredInvariant st.db) (hn : TrimSpace name ≠ "")
    (he : isValidEmail (TrimSpace email) = true) :
    StoredInvariant (st.insertReturningId name email).2.db := by
  unfold State.insertReturningId
  split
  · exact h
  · dsimp only
    split
    · exact h
    · split
      · exact h
      · rename_i hany
        simp only [Bool.not_eq_true, List.any_eq_false, beq_iff_eq] at hany
        refine ⟨?_, ?_⟩
        · simp only [List.map_append, List.map_cons, List.map_nil]
          apply List.Nodup.append h.1 (List.nodup_singleton _)
          intro i hi hi'
          rw [List.mem_singleton] at hi'
          obtain ⟨r, hr, hri⟩ := List.mem_map.mp hi
          exact hany r hr (by rw [hri, hi'])
        · intro r hr
          rcases List.mem_append.mp hr with hr | hr
          · exact h.2 r hr
          · rw [List.mem_singleton] at hr
            rw [hr]
            exact ⟨hn, he⟩

theorem State.execUpdate_inv (st : State) (name email : String) (id : Int)
    (h : StoredInvariant st.db) (hn : TrimSpace name ≠ "")
    (he : isValidEmail (TrimSpace email) = true) :
    StoredInvariant (st.execUpdate name email id).2.db := by
  unfold State.execUpdate
  split
  · exact h
  · refine ⟨?_, ?_⟩
    · have hid : (fun r : User => r.ID) ∘
          (fun r : User => if (r.ID == id) = true then { r with Name := name, Email := email }
            else r) = fun r => r.ID := by
        funext r
        dsimp only [Function.comp]
        split <;> rfl
      dsimp only [State.send]
      rw [List.map_map, hid]
      exact h.1
    · intro r hr
      obtain ⟨r₀, hr₀, hrr⟩ := List.mem_map.mp hr
      by_cases hc : (r₀.ID == id) = true
      · rw [if_pos hc] at hrr
        rw [← hrr]
        exact ⟨hn, he⟩
      · rw [if_neg hc] at hrr
        rw [← hrr]
        exact h.2 r₀ hr₀

theorem State.execDelete_inv (st : State) (id : Int) (h : StoredInvariant st.db) :
    StoredInvariant (st.execDelete id).2.db := by
  unfold State.execDelete
  split
  · exact h
  · refine ⟨?_, ?_⟩
    · exact List.Nodup.sublist ((List.filter_sublist _).map _) h.1
    · intro r hr
      exact h.2 r (List.mem_filter.mp hr).1

/-! ## The claims -/

/-- C1, as the code has it. The email check of the create and update handlers
(`strings.TrimSpace`, which strips Unicode white space, then `isValidEmail`) accepts
`e` exactly when the trimmed text is `L@D.T` with `L`, `D`, `T` non-empty and free
of `@` and of the five characters of the regexp class `\s` (tab, line feed, form
feed, carriage return, space). Every accepted text holds exactly one `@` with a `.`
after it; `a@b.c` and ` a@b.c ` are accepted, `a@b` and `ab.com` rejected; and the
handlers answer `Invalid email format` exactly when the name check passes and this
check fails. -/
theorem C1_email_check :
    (∀ e : String, isValidEmail (TrimSpace e) = true ↔ HasEmailShape perlSpace (TrimSpace e)) ∧
    (∀ e : String, isValidEmail (TrimSpace e) = true →
      e.data.count '@' = 1 ∧ ∃ a b, e.data = a ++ '@' :: b ∧ '.' ∈ b) ∧
    isValidEmail (TrimSpace "a@b.c") = true ∧ isValidEmail (TrimSpace " a@b.c ") = true ∧
    isValidEmail (TrimSpace "a@b") = false ∧ isValidEmail (TrimSpace "ab.com") = false ∧
    (∀ (st : State) (u : User),
      (createUser st (some u)).1 = ⟨400, .error "Invalid email format"⟩ ↔
        ¬ Blank u.Name ∧ ¬ HasEmailShape perlSpace (TrimSpace u.Email)) ∧
    (∀ (st : State) (u : User) (idStr : String),
      (updateUser st (some u) idStr).1 = ⟨400, .error "Invalid email format"⟩ ↔
        ¬ Blank u.Name ∧ ¬ HasEmailShape perlSpace (TrimSpace u.Email)) := by
  refine ⟨fun e => isValidEmail_iff _, accepted_one_at, by decide, by decide, by decide,
    by decide, ?_, ?_⟩
  · intro st u
    rw [← isValidEmail_iff, ← TrimSpace_eq_empty_iff, ← utf8ByteSize_eq_zero_iff]
    unfold createUser
    by_cases hn : (TrimSpace u.Name).utf8ByteSize = 0
    · simp [hn]
    · by_cases he : isValidEmail (TrimSpace u.Email) = true
      · simp only [hn, he, if_false, Bool.not_true, Bool.false_eq_true, not_true_eq_false,
          and_false, iff_false]
        split <;> simp
      · simp [hn, he]
  · intro st u idStr
    rw [← isValidEmail_iff, ← TrimSpace_eq_empty_iff]
    unfold updateUser
    by_cases hn : TrimSpace u.Name = ""
    · simp [hn]
    · by_cases he : isValidEmail (TrimSpace u.Email) = true
      · simp only [hn, he, if_false, Bool.not_true, Bool.false_eq_true, not_true_eq_false,
          and_false, iff_false]
        split
        · simp
        · split
          · simp
          · split
            · simp
            · split
              · simp
              · split <;> simp
      · simp [hn, he]

/-- C1 as stated fails, whichever of the two classes the code uses is meant by
"whitespace character". With the white space that the trim strips
(`unicode.IsSpace`): `a<VT>b@c.d`, with a vertical tab (U+000B) inside its local part,
is accepted, though no split `L@D.T` of it is free of whitespace. With the class
`\s` of the pattern: `<VT><space>a@b.c` is accepted, because the trim strips the
vertical tab and the space, though trimming `\s` alone leaves a space inside. -/
theorem C1_counterexample :
    TrimSpace "a\x0bb@c.d" = trimBy isSpace "a\x0bb@c.d" ∧
    ¬ EmailCheckWorded isSpace "a\x0bb@c.d" ∧
    ¬ EmailCheckWorded perlSpace "\x0b a@b.c" := by
  refine ⟨rfl, ?_, ?_⟩
  · intro h
    have hacc : isValidEmail (TrimSpace "a\x0bb@c.d") = true := by decide
    obtain ⟨L, D, T, hs, -, -, -, hall⟩ := h.mp hacc
    have htrim : trimBy isSpace "a\x0bb@c.d" = "a\x0bb@c.d" := by decide
    rw [htrim, String.ext_iff] at hs
    have hmem : '\x0b' ∈ ("a\x0bb@c.d" : String).data := by decide
    rw [hs] at hmem
    simp only [String.data_append, List.mem_append] at hmem
    have hsp : isSpace '\x0b' = true := by decide
    have hin : '\x0b' ∈ L.data ++ D.data ++ T.data := by
      rcases hmem with (((h | h) | h) | h) | h
      · simp [h]
      · exact absurd h (by decide)
      · simp [h]
      · exact absurd h (by decide)
      · simp [h]
    have := (hall _ hin).1
    rw [hsp] at this
    exact Bool.noConfusion this
  · intro h
    have hacc : isValidEmail (TrimSpace "\x0b a@b.c") = true := by decide
    obtain ⟨L, D, T, hs, -, -, -, hall⟩ := h.mp hacc
    have htrim : trimBy perlSpace "\x0b a@b.c" = "\x0b a@b.c" := by decide
    rw [htrim, String.ext_iff] at hs
    have hmem : ' ' ∈ ("\x0b a@b.c" : String).data := by decide
    rw [hs] at hmem
    simp only [String.data_append, List.mem_append] at hmem
    have hsp : perlSpace ' ' = true := by decide
    have hin : ' ' ∈ L.data ++ D.data ++ T.data := by
      rcases hmem with (((h | h) | h) | h) | h
      · simp [h]
      · exact absurd h (by decide)
      · simp [h]
      · exact absurd h (by decide)
      · simp [h]
    have := (hall _ hin).1
    rw [hsp] at this
    exact Bool.noConfusion this

/-- C2. The name check fails exactly when the name holds only whitespace (the
empty name included): `len(strings.TrimSpace(name)) == 0` of the create handler and
`strings.TrimSpace(name) == ""` of the update handler both hold exactly for such
names, so they agree on every input, and each handler answers 400
`Name cannot be empty` exactly for such names. -/
theorem C2_name_check :
    (∀ s : String, (TrimSpace s).utf8ByteSize = 0 ↔ Blank s) ∧
    (∀ s : String, TrimSpace s = "" ↔ Blank s) ∧
    (∀ s : String, (TrimSpace s).utf8ByteSize = 0 ↔ TrimSpace s = "") ∧
    (∀ (st : State) (u : User),
      (createUser st (some u)).1 = ⟨400, .error "Name cannot be empty"⟩ ↔ Blank u.Name) ∧
    (∀ (st : State) (u : User) (idStr : String),
      (updateUser st (some u) idStr).1 = ⟨400, .error "Name cannot be empty"⟩ ↔
        Blank u.Name) := by
  refine ⟨fun s => ?_, TrimSpace_eq_empty_iff, fun s => utf8ByteSize_eq_zero_iff _, ?_, ?_⟩
  · rw [utf8ByteSize_eq_zero_iff]
    exact TrimSpace_eq_empty_iff s
  · intro st u
    rw [← TrimSpace_eq_empty_iff, ← utf8ByteSize_eq_zero_iff]
    unfold createUser
    by_cases hn : (TrimSpace u.Name).utf8ByteSize = 0
    · simp [hn]
    · simp only [hn, if_false, iff_false]
      split
      · simp
      · split <;> simp
  · intro st u idStr
    rw [← TrimSpace_eq_empty_iff]
    unfold updateUser
    by_cases hn : TrimSpace u.Name = ""
    · simp [hn]
    · simp only [hn, if_false, iff_false]
      split
      · simp
      · split
        · simp
        · split
          · simp
          · split
            · simp
            · split
              · simp
              · split <;> simp

/-- C3, as the code has it. The handlers store the name and the email as submitted,
without trimming them. What every request preserves is: ids are unique, every stored
name is non-empty after trimming (so it is not empty and holds a non-whitespace
character), and every stored email matches the validation pattern after trimming. -/
theorem C3_store_invariant (st : State) (h : StoredInvariant st.db) :
    (∀ body, StoredInvariant (createUser st body).2.db) ∧
    (∀ body idStr, StoredInvariant (updateUser st body idStr).2.db) ∧
    (∀ idStr, StoredInvariant (deleteUser st idStr).2.db) ∧
    (∀ idStr, StoredInvariant (getUser st idStr).2.db) ∧
    StoredInvariant (getUsers st).2.db := by
  refine ⟨?_, ?_, ?_, ?_, ?_⟩
  · intro body
    unfold createUser
    split
    · exact h
    · rename_i u
      split
      · exact h
      · rename_i hn
        split
        · exact h
        · rename_i he
          have hn' : TrimSpace u.Name ≠ "" := fun e => hn ((utf8ByteSize_eq_zero_iff _).mpr e)
          have he' : isValidEmail (TrimSpace u.Email) = true := by simpa using he
          have key := State.insertReturningId_inv st u.Name u.Email h hn' he'
          split
          · rename_i e st₁ heq
            rw [heq] at key
            exact key
          · rename_i id st₁ heq
            rw [heq] at key
            exact key
  · intro body idStr
    unfold updateUser
    split
    · exact h
    · rename_i u
      split
      · exact h
      · rename_i hn
        split
        · exact h
        · rename_i he
          have he' : isValidEmail (TrimSpace u.Email) = true := by simpa using he
          split
          · exact h
          · rename_i id _
            split
            · exact h
            · have key := State.execUpdate_inv st u.Name u.Email id h hn he'
              split
              · rename_i e st₁ heq
                rw [heq] at key
                exact key
              · rename_i n st₁ heq
                rw [heq] at key
                split
                · exact key
                · split <;> exact key
  · intro idStr
    unfold deleteUser
    split
    · exact h
    · rename_i id _
      split
      · exact h
      · have hq := State.queryRowById_db st .deleteQueryRow id
        split
        · rename_i st₁ heq
          rw [heq] at hq
          rw [show st₁.db = st.db from hq]
          exact h
        · rename_i e st₁ heq
          rw [heq] at hq
          rw [State.logf_db, show st₁.db = st.db from hq]
          exact h
        · rename_i r st₁ heq
          rw [heq] at hq
          have h₁ : StoredInvariant st₁.db := by
            rw [show st₁.db = st.db from hq]
            exact h
          have key := State.execDelete_inv st₁ id h₁
          split
          · rename_i e st₂ heq₂
            rw [heq₂] at key
            exact key
          · rename_i st₂ heq₂
            rw [heq₂] at key
            exact key
  · intro idStr
    unfold getUser
    split
    · exact h
    · rename_i id _
      split
      · exact h
      · have hq := State.queryRowById_db st .userQueryRow id
        split <;>
        · rename_i heq
          rw [heq] at hq
          first
            | rw [State.logf_db, show _ = st.db from hq]
            | rw [show _ = st.db from hq]
          exact h
  · unfold getUsers
    have hq := State.querySelectAll_db st
    split
    · rename_i e st₁ heq
      rw [heq] at hq
      rw [State.logf_db, show st₁.db = st.db from hq]
      exact h
    · rename_i rows st₁ heq
      rw [heq] at hq
      have h₁ : StoredInvariant st₁.db := by
        rw [show st₁.db = st.db from hq]
        exact h
      split
      · exact h₁
      · split
        · exact h₁
        · exact h₁

/-- C3 at a concrete store: a table holding an untrimmed row, and a driver that
fails nothing. -/
theorem C3_store_invariant_witness :
    StoredInvariant (State.start ⟨[⟨1, " Bob ", " a@b.c "⟩], 1⟩ noFault).db ∧
    ((∀ body, StoredInvariant
        (createUser (State.start ⟨[⟨1, " Bob ", " a@b.c "⟩], 1⟩ noFault) body).2.db) ∧
      (∀ body idStr, StoredInvariant
        (updateUser (State.start ⟨[⟨1, " Bob ", " a@b.c "⟩], 1⟩ noFault) body idStr).2.db) ∧
      (∀ idStr, StoredInvariant
        (deleteUser (State.start ⟨[⟨1, " Bob ", " a@b.c "⟩], 1⟩ noFault) idStr).2.db) ∧
      (∀ idStr, StoredInvariant
        (getUser (State.start ⟨[⟨1, " Bob ", " a@b.c "⟩], 1⟩ noFault) idStr).2.db) ∧
      StoredInvariant (getUsers (State.start ⟨[⟨1, " Bob ", " a@b.c "⟩], 1⟩ noFault)).2.db) :=
  ⟨by decide, C3_store_invariant _ (by decide)⟩

/-- C3 as stated fails: on the empty table, `POST /users` with the body
`{"name":" Bob ","email":" a@b.c "}` answers 201 and stores the name ` Bob ` and the
email ` a@b.c ` as submitted; the stored name differs from its trim and the stored
email does not match the pattern. -/
theorem C3_counterexample :
    TrimmedInvariant (State.start ⟨[], 0⟩ noFault).db ∧
    (createUser (State.start ⟨[], 0⟩ noFault) (some ⟨0, " Bob ", " a@b.c "⟩)).1 =
      ⟨201, .user ⟨1, " Bob ", " a@b.c "⟩⟩ ∧
    (createUser (State.start ⟨[], 0⟩ noFault) (some ⟨0, " Bob ", " a@b.c "⟩)).2.db.rows =
      [⟨1, " Bob ", " a@b.c "⟩] ∧
    TrimSpace " Bob " ≠ " Bob " ∧ isValidEmail " a@b.c " = false ∧
    ¬ TrimmedInvariant
      (createUser (State.start ⟨[], 0⟩ noFault) (some ⟨0, " Bob ", " a@b.c "⟩)).2.db := by
  refine ⟨by decide, by decide, by decide, by decide, by decide, by decide⟩

/-- C4. `PUT /users/{id}` reports the first applicable error in the order body
decoding, name, email, id: 400 `Invalid JSON body` when the body does not decode;
else 400 `Name cannot be empty` when the name is blank; else 400
`Invalid email format` when the email check fails; else 400 `Invalid user ID` when
the path id is refused; whatever the later checks would say (the body
`{"name":"","email":"bad"}` on `/users/abc` gives `Name cannot be empty`). In the four
cases the handler returns the state it was given: no statement is sent, the table
and the log are untouched, and the response is the same for every store. -/
theorem C4_update_error_order (st : State) (idStr : String) :
    updateUser st none idStr = (⟨400, .error "Invalid JSON body"⟩, st) ∧
    (∀ u : User, Blank u.Name →
      updateUser st (some u) idStr = (⟨400, .error "Name cannot be empty"⟩, st)) ∧
    (∀ u : User, ¬ Blank u.Name → isValidEmail (TrimSpace u.Email) = false →
      updateUser st (some u) idStr = (⟨400, .error "Invalid email format"⟩, st)) ∧
    (∀ u : User, ¬ Blank u.Name → isValidEmail (TrimSpace u.Email) = true →
      InvalidUserID idStr →
      updateUser st (some u) idStr = (⟨400, .error "Invalid user ID"⟩, st)) ∧
    updateUser st (some ⟨0, "", "bad"⟩) "abc" = (⟨400, .error "Name cannot be empty"⟩, st) := by
  refine ⟨rfl, ?_, ?_, ?_, ?_⟩
  · intro u hb
    have h := (TrimSpace_eq_empty_iff u.Name).mpr hb
    simp [updateUser, h]
  · intro u hb he
    have h : TrimSpace u.Name ≠ "" := fun e => hb ((TrimSpace_eq_empty_iff u.Name).mp e)
    simp [updateUser, h, he]
  · intro u hb he hid
    have h : TrimSpace u.Name ≠ "" := fun e => hb ((TrimSpace_eq_empty_iff u.Name).mp e)
    rcases hid with hid | ⟨id, hid, hle⟩
    · simp [updateUser, h, he, hid]
    · simp [updateUser, h, he, hid, hle]
  · have h : TrimSpace "" = "" := by decide
    simp [updateUser, h]

/-- C8. `GET /users/{id}` and `DELETE /users/{id}` answer 400 `Invalid user ID`
exactly when the path variable does not parse (`strconv.Atoi` fails) or parses to a
value that is not positive (`abc`, `0`, `-1`; also the empty text, `1.5`, and a
number past the range of `int`), and then return the state they were given (no
statement sent). When it parses to a positive `id`, the first statement
sent is the lookup `SELECT ... WHERE id = $1` with that `id`, and, the driver not
failing, the answer of `GET` is the row found (200) or `User not found` (404). -/
theorem C8_invalid_id (st : State) (idStr : String) :
    ((getUser st idStr).1 = ⟨400, .error "Invalid user ID"⟩ ↔ InvalidUserID idStr) ∧
    ((deleteUser st idStr).1 = ⟨400, .error "Invalid user ID"⟩ ↔ InvalidUserID idStr) ∧
    (InvalidUserID idStr → getUser st idStr = (⟨400, .error "Invalid user ID"⟩, st) ∧
      deleteUser st idStr = (⟨400, .error "Invalid user ID"⟩, st)) ∧
    (∀ id, Atoi idStr = some id → 0 < id →
      (getUser st idStr).2.stmts = st.stmts ++ [.selectById id] ∧
      (∃ rest, (deleteUser st idStr).2.stmts = st.stmts ++ .selectById id :: rest) ∧
      (st.drv .userQueryRow = none →
        (getUser st idStr).1 =
          match st.db.rows.find? (fun r => r.ID == id) with
          | some r => ⟨200, .user r⟩
          | none => ⟨404, .error "User not found"⟩)) ∧
    InvalidUserID "abc" ∧ InvalidUserID "0" ∧ InvalidUserID "-1" ∧
    InvalidUserID "" ∧ InvalidUserID "1.5" ∧ InvalidUserID "9223372036854775808" := by
  have hinv : InvalidUserID idStr →
      getUser st idStr = (⟨400, .error "Invalid user ID"⟩, st) ∧
      deleteUser st idStr = (⟨400, .error "Invalid user ID"⟩, st) := by
    rintro (h | ⟨id, h, hle⟩)
    · simp [getUser, deleteUser, h]
    · simp [getUser, deleteUser, h, hle]
  have hget : ∀ id, Atoi idStr = some id → 0 < id →
      (getUser st idStr).1 ≠ ⟨400, .error "Invalid user ID"⟩ ∧
      (deleteUser st idStr).1 ≠ ⟨400, .error "Invalid user ID"⟩ := by
    intro id h hpos
    have hle : ¬ id ≤ 0 := not_le.mpr hpos
    constructor
    · simp only [getUser, h, hle, if_false]
      split <;> simp
    · simp only [deleteUser, h, hle, if_false]
      split
      · simp
      · simp
      · split <;> simp
  have hcases : InvalidUserID idStr ∨ ∃ id, Atoi idStr = some id ∧ 0 < id := by
    unfold InvalidUserID
    cases h : Atoi idStr with
    | none => exact Or.inl (Or.inl rfl)
    | some id =>
      by_cases hle : id ≤ 0
      · exact Or.inl (Or.inr ⟨id, rfl, hle⟩)
      · exact Or.inr ⟨id, rfl, not_le.mp hle⟩
  have hexcl : ∀ id, Atoi idStr = some id → 0 < id → ¬ InvalidUserID idStr := by
    rintro id h hpos (h' | ⟨id', h', hle⟩)
    · rw [h] at h'
      exact Option.noConfusion h'
    · rw [h] at h'
      cases h'
      exact absurd hpos (not_lt.mpr hle)
  refine ⟨⟨?_, fun h => by rw [(hinv h).1]⟩, ⟨?_, fun h => by rw [(hinv h).2]⟩, hinv, ?_,
    Or.inl (by decide), Or.inr ⟨0, by decide, le_refl _⟩, Or.inr ⟨-1, by decide, by decide⟩,
    Or.inl (by decide), Or.inl (by decide), Or.inl (by decide)⟩
  · intro h
    rcases hcases with hc | ⟨id, hid, hpos⟩
    · exact hc
    · exact absurd h (hget id hid hpos).1
  · intro h
    rcases hcases with hc | ⟨id, hid, hpos⟩
    · exact hc
    · exact absurd h (hget id hid hpos).2
  · intro id hid hpos
    have hle : ¬ id ≤ 0 := not_le.mpr hpos
    refine ⟨?_, ?_, ?_⟩
    · simp only [getUser, hid, hle, if_false, State.queryRowById]
      cases st.drv .userQueryRow with
      | some e => rfl
      | none =>
        dsimp only
        cases st.db.rows.find? (fun r => r.ID == id) <;> rfl
    · simp only [deleteUser, hid, hle, if_false, State.queryRowById]
      cases st.drv .deleteQueryRow with
      | some e => exact ⟨[], rfl⟩
      | none =>
        dsimp only
        cases st.db.rows.find? (fun r => r.ID == id) with
        | none => exact ⟨[], rfl⟩
        | some r =>
          dsimp only [State.execDelete, State.send]
          cases st.drv .deleteExec with
          | some e => exact ⟨[.delete id], by simp [State.logf]⟩
          | none => exact ⟨[.delete id], by simp⟩
    · intro hd
      simp only [getUser, hid, hle, if_false, State.queryRowById, hd]
      cases st.db.rows.find? (fun r => r.ID == id) <;> rfl

/-- C5, as the code has it. For a `PUT /users/{id}` with a decodable body, a valid
name, a valid email and a positive id: when no row has that id, the handler never
answers 200 and leaves the table unchanged, and it answers 404 `User not found`
provided neither store call fails (the `UPDATE` and the reading of the affected-row
count; a failure of either gives 500 instead). When the `UPDATE` does not fail and
the count can be read, the answer is 404 exactly when the number of rows modified,
which is the number of rows with that id, is zero. -/
theorem C5_update_missing (st : State) (u : User) (idStr : String) (id : Int)
    (hn : ¬ Blank u.Name) (he : isValidEmail (TrimSpace u.Email) = true)
    (hid : Atoi idStr = some id) (hpos : 0 < id) :
    ((∀ r ∈ st.db.rows, r.ID ≠ id) →
      (updateUser st (some u) idStr).1.status ≠ 200 ∧
      (updateUser st (some u) idStr).2.db = st.db ∧
      (st.drv .updateExec = none → st.drv .updateRowsAffected = none →
        (updateUser st (some u) idStr).1 = ⟨404, .error "User not found"⟩) ∧
      ((st.drv .updateExec ≠ none ∨ st.drv .updateRowsAffected ≠ none) →
        (updateUser st (some u) idStr).1 = ⟨500, .error "Error updating user"⟩)) ∧
    (∀ n, (st.execUpdate u.Name u.Email id).1 = .ok n → st.drv .updateRowsAffected = none →
      ((updateUser st (some u) idStr).1 = ⟨404, .error "User not found"⟩ ↔ n = 0) ∧
      n = st.db.rows.countP (fun r => r.ID == id)) := by
  have hname : TrimSpace u.Name ≠ "" := fun e => hn ((TrimSpace_eq_empty_iff u.Name).mp e)
  have hle : ¬ id ≤ 0 := not_le.mpr hpos
  constructor
  · intro hmiss
    have hcount : st.db.rows.countP (fun r => r.ID == id) = 0 := by
      rw [List.countP_eq_zero]
      intro r hr
      simpa using hmiss r hr
    have hmap : st.db.rows.map
        (fun r => if (r.ID == id) = true then { r with Name := u.Name, Email := u.Email }
          else r) = st.db.rows := by
      have hsame : ∀ r ∈ st.db.rows,
          (if (r.ID == id) = true then { r with Name := u.Name, Email := u.Email } else r)
            = (fun x : User => x) r := by
        intro r hr
        have : (r.ID == id) = false := by simpa using hmiss r hr
        simp [this]
      rw [List.map_congr_left hsame]
      exact List.map_id' _
    simp only [updateUser, hname, he, hid, hle, if_false, Bool.not_true, Bool.false_eq_true,
      State.execUpdate, State.send, hcount, hmap]
    cases hx : st.drv .updateExec with
    | some e => simp
    | none =>
      dsimp only
      cases hr : st.drv .updateRowsAffected with
      | some e => simp
      | none => simp
  · intro n hex hr
    simp only [State.execUpdate] at hex
    cases hx : st.drv .updateExec with
    | some e =>
      rw [hx] at hex
      cases hex
    | none =>
      rw [hx] at hex
      dsimp only at hex
      have hn' : n = st.db.rows.countP (fun r => r.ID == id) := by
        injection hex with hex
        exact hex.symm
      refine ⟨?_, hn'⟩
      simp only [updateUser, hname, he, hid, hle, if_false, Bool.not_true, Bool.false_eq_true,
        State.execUpdate, State.send, hx, hr, ← hn']
      by_cases h0 : n = 0
      · simp [h0]
      · simp [h0]

/-- C5 on a table whose only row has id 1: `PUT /users/999999` answers 404. -/
theorem C5_update_missing_witness :
    (updateUser (State.start ⟨[⟨1, "Ann", "ann@b.c"⟩], 1⟩ noFault) (some ⟨0, "Al", "al@b.c"⟩)
      "999999").1 = ⟨404, .error "User not found"⟩ ∧
    (updateUser (State.start ⟨[⟨1, "Ann", "ann@b.c"⟩], 1⟩ noFault) (some ⟨0, "Al", "al@b.c"⟩)
      "999999").2.db = ⟨[⟨1, "Ann", "ann@b.c"⟩], 1⟩ :=
  have h := (C5_update_missing (State.start ⟨[⟨1, "Ann", "ann@b.c"⟩], 1⟩ noFault)
    ⟨0, "Al", "al@b.c"⟩ "999999" 999999 (by decide) (by decide) (by decide) (by decide)).1
    (by decide)
  ⟨h.2.2.1 rfl rfl, h.2.1⟩

/-- C5 as stated fails when a store call fails. On the empty table, `PUT
/users/999999` with a valid body answers 500 `Error updating user`, not 404, when the
`UPDATE` fails; and also when the `UPDATE` goes through, modifying zero rows, but the
affected-row count cannot be read. -/
theorem C5_counterexample :
    (updateUser
      (State.start ⟨[], 0⟩ (fun c => if c = .updateExec then some "connection reset" else none))
      (some ⟨0, "Al", "al@b.c"⟩) "999999").1 = ⟨500, .error "Error updating user"⟩ ∧
    ((State.start ⟨[], 0⟩
        (fun c => if c = .updateRowsAffected then some "not supported" else none)).execUpdate
      "Al" "al@b.c" 999999).1 = .ok 0 ∧
    (updateUser
      (State.start ⟨[], 0⟩
        (fun c => if c = .updateRowsAffected then some "not supported" else none))
      (some ⟨0, "Al", "al@b.c"⟩) "999999").1 = ⟨500, .error "Error updating user"⟩ := by
  refine ⟨by decide, rfl, by decide⟩

theorem find_after_filter (rows : List User) (id : Int) :
    (rows.filter (fun r => !(r.ID == id))).find? (fun r => r.ID == id) = none := by
  rw [List.find?_eq_none]
  intro r hr
  have := (List.mem_filter.mp hr).2
  simpa using this

/-- C6. For a positive id that has a row, and no storage failure: `DELETE
/users/{id}` answers 200 `User deleted successfully` and leaves the table without the
rows of that id, every other row kept as it was and in place; a following `DELETE` of
the same id (whatever text denotes it) answers 404 `User not found` and leaves the
table as the first one left it. -/
theorem C6_delete_twice (st : State) (idStr : String) (id : Int)
    (hid : Atoi idStr = some id) (hpos : 0 < id)
    (hrow : ∃ r ∈ st.db.rows, r.ID = id)
    (hq : st.drv .deleteQueryRow = none) (hx : st.drv .deleteExec = none) :
    (deleteUser st idStr).1 = ⟨200, .message "User deleted successfully"⟩ ∧
    (deleteUser st idStr).2.db =
      { st.db with rows := st.db.rows.filter (fun r => !(r.ID == id)) } ∧
    (∀ r ∈ (deleteUser st idStr).2.db.rows, r.ID ≠ id) ∧
    (∀ r, r.ID ≠ id → (r ∈ (deleteUser st idStr).2.db.rows ↔ r ∈ st.db.rows)) ∧
    (∀ idStr₂ drv₂, Atoi idStr₂ = some id → drv₂ .deleteQueryRow = none →
      (deleteUser { (deleteUser st idStr).2 with drv := drv₂ } idStr₂).1 =
        ⟨404, .error "User not found"⟩ ∧
      (deleteUser { (deleteUser st idStr).2 with drv := drv₂ } idStr₂).2.db =
        (deleteUser st idStr).2.db) := by
  have hle : ¬ id ≤ 0 := not_le.mpr hpos
  obtain ⟨r₀, hr₀, hr₀id⟩ := hrow
  have hfind : ∃ r, st.db.rows.find? (fun r => r.ID == id) = some r := by
    cases hf : st.db.rows.find? (fun r => r.ID == id) with
    | some r => exact ⟨r, rfl⟩
    | none =>
      rw [List.find?_eq_none] at hf
      exact absurd (by simpa using hr₀id) (hf r₀ hr₀)
  obtain ⟨r₁, hr₁⟩ := hfind
  have hres : deleteUser st idStr =
      (⟨200, .message "User deleted successfully"⟩,
        { db := { st.db with rows := st.db.rows.filter (fun r => !(r.ID == id)) },
          drv := st.drv, stmts := st.stmts ++ [.selectById id] ++ [.delete id],
          log := st.log }) := by
    simp [deleteUser, hid, hle, State.queryRowById, hq, hr₁, State.execDelete, State.send, hx]
  rw [hres]
  refine ⟨rfl, rfl, ?_, ?_, ?_⟩
  · intro r hr
    have := (List.mem_filter.mp hr).2
    simpa using this
  · intro r hne
    dsimp only
    rw [List.mem_filter]
    simp [hne]
  · intro idStr₂ drv₂ hid₂ hq₂
    simp only [deleteUser, hid₂, hle, if_false, State.queryRowById, hq₂, find_after_filter,
      State.send]
    exact ⟨trivial, trivial⟩

/-- C6 on a table with the rows 1 and 2: deleting `1` twice gives 200, then 404. -/
theorem C6_delete_twice_witness :
    (deleteUser (State.start ⟨[⟨1, "Ann", "ann@b.c"⟩, ⟨2, "Bo", "bo@b.c"⟩], 2⟩ noFault)
      "1").1 = ⟨200, .message "User deleted successfully"⟩ ∧
    (deleteUser (State.start ⟨[⟨1, "Ann", "ann@b.c"⟩, ⟨2, "Bo", "bo@b.c"⟩], 2⟩ noFault)
      "1").2.db = ⟨[⟨2, "Bo", "bo@b.c"⟩], 2⟩ ∧
    (deleteUser { (deleteUser
      (State.start ⟨[⟨1, "Ann", "ann@b.c"⟩, ⟨2, "Bo", "bo@b.c"⟩], 2⟩ noFault) "1").2 with
        drv := noFault } "1").1 = ⟨404, .error "User not found"⟩ :=
  have h := C6_delete_twice
    (State.start ⟨[⟨1, "Ann", "ann@b.c"⟩, ⟨2, "Bo", "bo@b.c"⟩], 2⟩ noFault) "1" 1
    (by decide) (by decide) ⟨⟨1, "Ann", "ann@b.c"⟩, by decide, rfl⟩ rfl rfl
  ⟨h.1, h.2.1, (h.2.2.2.2 "1" noFault (by decide) rfl).1⟩

/-- C9. A `PUT /users/{id}` succeeds, answering 200, exactly when the body decodes,
the name and the email are valid, the path id is positive, a row has that id and
neither store call fails. The response body is then exactly the decoded record: the
submitted name and email unmodified and the id field of the body (not the path id,
not a row read back). In the table the rows whose id is the path id keep their id
and take the submitted name and email; every other row, and the sequence, are
unchanged. -/
theorem C9_update_echo (st : State) (body : Option User) (idStr : String) :
    (∀ u id, body = some u → ¬ Blank u.Name → isValidEmail (TrimSpace u.Email) = true →
      Atoi idStr = some id → 0 < id → (∃ r ∈ st.db.rows, r.ID = id) →
      st.drv .updateExec = none → st.drv .updateRowsAffected = none →
      (updateUser st body idStr).1 = ⟨200, .user u⟩ ∧
      (updateUser st body idStr).2.db.rows =
        st.db.rows.map (fun r => if r.ID = id then ⟨r.ID, u.Name, u.Email⟩ else r) ∧
      (updateUser st body idStr).2.db.lastval = st.db.lastval) ∧
    ((updateUser st body idStr).1.status = 200 →
      ∃ u id, body = some u ∧ ¬ Blank u.Name ∧ isValidEmail (TrimSpace u.Email) = true ∧
        Atoi idStr = some id ∧ 0 < id ∧
        st.drv .updateExec = none ∧ st.drv .updateRowsAffected = none ∧
        (updateUser st body idStr).1 = ⟨200, .user u⟩ ∧
        (updateUser st body idStr).2.db.rows =
          st.db.rows.map (fun r => if r.ID = id then ⟨r.ID, u.Name, u.Email⟩ else r) ∧
        (updateUser st body idStr).2.db.lastval = st.db.lastval ∧
        ∃ r ∈ st.db.rows, r.ID = id) := by
  constructor
  · intro u id hbody hn he hid hpos hrow hx hr
    subst hbody
    have hname : TrimSpace u.Name ≠ "" := fun e => hn ((TrimSpace_eq_empty_iff u.Name).mp e)
    have hle : ¬ id ≤ 0 := not_le.mpr hpos
    obtain ⟨r₀, hr₀, hr₀id⟩ := hrow
    have h0 : ¬ st.db.rows.countP (fun r => r.ID == id) = 0 := by
      intro hz
      rw [List.countP_eq_zero] at hz
      exact hz r₀ hr₀ (by simpa using hr₀id)
    refine ⟨?_, ?_, ?_⟩
    · simp [updateUser, hname, he, hid, hle, State.execUpdate, hx, hr, State.send, h0]
    · simp [updateUser, hname, he, hid, hle, State.execUpdate, hx, hr, State.send, h0]
    · simp [updateUser, hname, he, hid, hle, State.execUpdate, hx, hr, State.send, h0]
  · intro h
    cases body with
    | none => simp [updateUser] at h
    | some u =>
      by_cases hname : TrimSpace u.Name = ""
      · simp [updateUser, hname] at h
      · by_cases he : isValidEmail (TrimSpace u.Email) = true
        · cases hid : Atoi idStr with
          | none => simp [updateUser, hname, he, hid] at h
          | some id =>
            by_cases hle : id ≤ 0
            · simp [updateUser, hname, he, hid, hle] at h
            · cases hx : st.drv .updateExec with
              | some e =>
                simp [updateUser, hname, he, hid, hle, State.execUpdate, hx] at h
              | none =>
                cases hr : st.drv .updateRowsAffected with
                | some e =>
                  simp [updateUser, hname, he, hid, hle, State.execUpdate, hx, hr,
                    State.send] at h
                | none =>
                  by_cases h0 : st.db.rows.countP (fun r => r.ID == id) = 0
                  · simp [updateUser, hname, he, hid, hle, State.execUpdate, hx, hr,
                      State.send, h0] at h
                  · have hblank : ¬ Blank u.Name := fun hb =>
                      hname ((TrimSpace_eq_empty_iff u.Name).mpr hb)
                    refine ⟨u, id, rfl, hblank, he, rfl, not_le.mp hle, rfl, rfl,
                      ?_, ?_, ?_, ?_⟩
                    · simp [updateUser, hname, he, hid, hle, State.execUpdate, hx, hr,
                        State.send, h0]
                    · simp [updateUser, hname, he, hid, hle, State.execUpdate, hx, hr,
                        State.send, h0]
                    · simp [updateUser, hname, he, hid, hle, State.execUpdate, hx, hr,
                        State.send, h0]
                    · have hpos : 0 < st.db.rows.countP (fun r => r.ID == id) :=
                        Nat.pos_of_ne_zero h0
                      obtain ⟨r, hr, hrid⟩ := List.countP_pos_iff.mp hpos
                      exact ⟨r, hr, by simpa using hrid⟩
        · simp [updateUser, hname, he] at h

/-- C9 on a table with the rows 1 and 2: `PUT /users/1` with a valid body whose id
field is 7 answers 200 with the body as submitted, id 7 included, and rewrites row 1
only. -/
theorem C9_update_echo_witness :
    (updateUser (State.start ⟨[⟨1, "Ann", "ann@b.c"⟩, ⟨2, "Bo", "bo@b.c"⟩], 2⟩ noFault)
      (some ⟨7, " New ", " n@x.y"⟩) "1").1 = ⟨200, .user ⟨7, " New ", " n@x.y"⟩⟩ ∧
    (updateUser (State.start ⟨[⟨1, "Ann", "ann@b.c"⟩, ⟨2, "Bo", "bo@b.c"⟩], 2⟩ noFault)
      (some ⟨7, " New ", " n@x.y"⟩) "1").2.db.rows =
        [⟨1, " New ", " n@x.y"⟩, ⟨2, "Bo", "bo@b.c"⟩] ∧
    (updateUser (State.start ⟨[⟨1, "Ann", "ann@b.c"⟩, ⟨2, "Bo", "bo@b.c"⟩], 2⟩ noFault)
      (some ⟨7, " New ", " n@x.y"⟩) "1").2.db.lastval = 2 :=
  have h := (C9_update_echo
    (State.start ⟨[⟨1, "Ann", "ann@b.c"⟩, ⟨2, "Bo", "bo@b.c"⟩], 2⟩ noFault)
    (some ⟨7, " New ", " n@x.y"⟩) "1").1 ⟨7, " New ", " n@x.y"⟩ 1 rfl (by decide) (by decide)
    (by decide) (by decide) ⟨⟨1, "Ann", "ann@b.c"⟩, by decide, rfl⟩ rfl rfl
  ⟨h.1, h.2.1, h.2.2⟩

/-! ## Decimal text of an id -/

theorem parseDigits_append (xs ys : List Char) (k : Nat) :
    parseDigits (xs ++ ys) k = (parseDigits xs k).bind (fun m => parseDigits ys m) := by
  induction xs generalizing k with
  | nil => rfl
  | cons c cs ih =>
    simp only [List.cons_append, parseDigits]
    cases digitVal c with
    | none => rfl
    | some d => exact ih _

theorem formatDigits_acc (fuel n : Nat) (acc : List Char) :
    formatDigits fuel n acc = formatDigits fuel n [] ++ acc := by
  induction fuel generalizing n acc with
  | zero => rfl
  | succ f ih =>
    simp only [formatDigits]
    split
    · rfl
    · rw [ih (n / 10) (digitChar (n % 10) :: acc), ih (n / 10) [digitChar (n % 10)]]
      simp

theorem digitVal_digitChar (d : Nat) (h : d < 10) : digitVal (digitChar d) = some d := by
  interval_cases d <;> rfl

theorem parseDigits_formatDigits (fuel n : Nat) (h : n < fuel) :
    parseDigits (formatDigits fuel n []) 0 = some n := by
  induction fuel generalizing n with
  | zero => omega
  | succ f ih =>
    simp only [formatDigits]
    split
    · rename_i hlt
      simp [parseDigits, digitVal_digitChar n hlt]
    · rename_i hge
      rw [formatDigits_acc, parseDigits_append, ih (n / 10) (by omega)]
      simp only [Option.bind, parseDigits, digitVal_digitChar (n % 10) (Nat.mod_lt _ (by omega))]
      congr 1
      omega

theorem formatDigits_ne_nil (fuel n : Nat) : formatDigits (fuel + 1) n [] ≠ [] := by
  simp only [formatDigits]
  split
  · simp
  · rw [formatDigits_acc]
    simp

/-- The decimal text of a non-negative `int` parses back to it. -/
theorem Atoi_Itoa (i : Int) (h0 : 0 ≤ i) (h1 : i ≤ 2 ^ 63 - 1) : Atoi (Itoa i) = some i := by
  obtain ⟨n, rfl⟩ := Int.eq_ofNat_of_zero_le h0
  have hparse := parseDigits_formatDigits (n + 1) n (by omega)
  have hne := formatDigits_ne_nil n n
  have hItoa : (Itoa (n : Int)).data = formatDigits (n + 1) n [] := by
    have hneg : ¬ ((n : Int) < 0) := by omega
    simp [Itoa, hneg]
  unfold Atoi
  rw [hItoa]
  cases hfd : formatDigits (n + 1) n [] with
  | nil => exact absurd hfd hne
  | cons c cs =>
    rw [hfd] at hparse
    have hc : ¬ (c = '-' ∨ c = '+') := by
      rintro (rfl | rfl)
      · simp [parseDigits, digitVal] at hparse
      · simp [parseDigits, digitVal] at hparse
    have hc' : ¬ c = '-' := fun e => hc (Or.inl e)
    have hrange : -(2 : Int) ^ (intSize - 1) ≤ (n : Int) ∧
        (n : Int) ≤ (2 : Int) ^ (intSize - 1) - 1 := by
      unfold intSize
      constructor
      · norm_num
        omega
      · norm_num
        norm_num at h1
        exact h1
    have hc₂ : ¬ c = '+' := fun e => hc (Or.inr e)
    simp only [hc', hc₂, or_self, if_false, hparse, hrange, and_self, if_true]

/-! ## Create, then get -/

theorem State.insertReturningId_ok (st : State) (name email : String) (id : Int)
    (h : (st.insertReturningId name email).1 = .ok id) :
    id = ((st.db.lastval + 1 : Nat) : Int) ∧ st.db.lastval + 1 ≤ maxSerial ∧
    (∀ r ∈ st.db.rows, r.ID ≠ id) ∧
    (st.insertReturningId name email).2.db =
      ⟨st.db.rows ++ [⟨id, name, email⟩], st.db.lastval + 1⟩ := by
  unfold State.insertReturningId at h ⊢
  cases hd : st.drv .createQueryRow with
  | some e =>
    rw [hd] at h
    cases h
  | none =>
    rw [hd] at h
    dsimp only at h ⊢
    by_cases hmax : maxSerial < st.db.lastval + 1
    · rw [if_pos hmax] at h
      cases h
    · rw [if_neg hmax] at h ⊢
      by_cases hany : (st.db.rows.any fun r => r.ID == ((st.db.lastval + 1 : Nat) : Int)) = true
      · rw [if_pos hany] at h
        cases h
      · rw [if_neg hany] at h ⊢
        injection h with h
        subst h
        simp only [Bool.not_eq_true, List.any_eq_false, beq_iff_eq] at hany
        exact ⟨rfl, not_lt.mp hmax, hany, rfl⟩

/-- C7. Create, then get. For a body with a valid name and email, when the `INSERT`
does not fail and returns `id`: the create handler answers 201 with the record made
of that id and the submitted name and email; the id is positive and its decimal text
parses back to it; and a following `GET /users/{id}`, the driver not failing, answers
200 with the same id, name and email. -/
theorem C7_create_then_get (st : State) (u : User) (id : Int)
    (hn : ¬ Blank u.Name) (he : isValidEmail (TrimSpace u.Email) = true)
    (hins : (st.insertReturningId u.Name u.Email).1 = .ok id) :
    (createUser st (some u)).1 = ⟨201, .user ⟨id, u.Name, u.Email⟩⟩ ∧
    0 < id ∧ Atoi (Itoa id) = some id ∧
    ∀ drv₂ idStr, drv₂ .userQueryRow = none → Atoi idStr = some id →
      (getUser { (createUser st (some u)).2 with drv := drv₂ } idStr).1 =
        ⟨200, .user ⟨id, u.Name, u.Email⟩⟩ := by
  obtain ⟨hidv, hmax, hfresh, hdb⟩ := State.insertReturningId_ok st u.Name u.Email id hins
  have hname : ¬ (TrimSpace u.Name).utf8ByteSize = 0 := fun e =>
    hn ((TrimSpace_eq_empty_iff u.Name).mp ((utf8ByteSize_eq_zero_iff _).mp e))
  have hpos : 0 < id := by
    rw [hidv]
    exact Int.natCast_pos.mpr (Nat.succ_pos _)
  have hle : ¬ id ≤ 0 := not_le.mpr hpos
  have hcreate : createUser st (some u) =
      (⟨201, .user ⟨id, u.Name, u.Email⟩⟩, (st.insertReturningId u.Name u.Email).2) := by
    simp only [createUser, hname, he, if_false, Bool.not_true, Bool.false_eq_true]
    revert hins
    cases st.insertReturningId u.Name u.Email with
    | mk res st₁ =>
      intro hins
      dsimp only at hins
      subst hins
      rfl
  refine ⟨by rw [hcreate], hpos, ?_, ?_⟩
  · apply Atoi_Itoa id hpos.le
    rw [hidv]
    unfold maxSerial at hmax
    have : ((st.db.lastval + 1 : Nat) : Int) ≤ 2147483647 := by exact_mod_cast hmax
    norm_num
    omega
  · intro drv₂ idStr hd hid
    rw [hcreate]
    have hfind : (st.db.rows ++ [(⟨id, u.Name, u.Email⟩ : User)]).find? (fun r => r.ID == id)
        = some ⟨id, u.Name, u.Email⟩ := by
      have hnone : st.db.rows.find? (fun r => r.ID == id) = none := by
        rw [List.find?_eq_none]
        intro r hr
        simpa using hfresh r hr
      simp [List.find?_append, hnone]
    simp only [getUser, hid, hle, if_false, State.queryRowById, hd, hdb, hfind]

/-- C7 on the empty table: creating Alice gives id 1, and `GET /users/1` returns the
same record. -/
theorem C7_create_then_get_witness :
    (createUser (State.start ⟨[], 0⟩ noFault) (some ⟨0, "Alice", "alice@example.com"⟩)).1 =
      ⟨201, .user ⟨1, "Alice", "alice@example.com"⟩⟩ ∧
    Itoa 1 = "1" ∧
    (getUser { (createUser (State.start ⟨[], 0⟩ noFault)
        (some ⟨0, "Alice", "alice@example.com"⟩)).2 with drv := noFault } (Itoa 1)).1 =
      ⟨200, .user ⟨1, "Alice", "alice@example.com"⟩⟩ :=
  have h := C7_create_then_get (State.start ⟨[], 0⟩ noFault)
    ⟨0, "Alice", "alice@example.com"⟩ 1 (by decide) (by decide) rfl
  ⟨h.1, by decide, h.2.2.2 noFault (Itoa 1) rfl h.2.2.1⟩

/-! ## Storage failures and the response -/

theorem SameFailures.either {d₁ d₂ : Driver} (hf : SameFailures d₁ d₂) (c : Call) :
    (d₁ c = none ∧ d₂ c = none) ∨ ∃ e₁ e₂, d₁ c = some e₁ ∧ d₂ c = some e₂ := by
  have h := hf c
  cases h₁ : d₁ c with
  | none =>
    cases h₂ : d₂ c with
    | none => exact Or.inl ⟨rfl, rfl⟩
    | some e₂ => simp [h₁, h₂] at h
  | some e₁ =>
    cases h₂ : d₂ c with
    | none => simp [h₁, h₂] at h
    | some e₂ => exact Or.inr ⟨e₁, e₂, rfl, rfl⟩

theorem scanUsers_same {d₁ d₂ : Driver} (hf : SameFailures d₁ d₂) (rows : List User)
    (i : Nat) (acc : List User) :
    (∃ e₁ e₂, scanUsers d₁ rows i acc = .error e₁ ∧ scanUsers d₂ rows i acc = .error e₂) ∨
      ∃ us, scanUsers d₁ rows i acc = .ok us ∧ scanUsers d₂ rows i acc = .ok us := by
  induction rows generalizing i acc with
  | nil => exact Or.inr ⟨acc, rfl, rfl⟩
  | cons r rest ih =>
    rcases hf.either (.usersScan i) with ⟨h₁, h₂⟩ | ⟨e₁, e₂, h₁, h₂⟩
    · simp only [scanUsers, h₁, h₂]
      exact ih (i + 1) (acc ++ [r])
    · exact Or.inl ⟨e₁, e₂, by simp only [scanUsers, h₁], by simp only [scanUsers, h₂]⟩

theorem scanUsers_fault (d : Driver) (rows : List User) (i : Nat) (acc : List User)
    (j : Nat) (hj : j < rows.length) (e : String) (hd : d (.usersScan (i + j)) = some e) :
    ∃ e', scanUsers d rows i acc = .error e' := by
  induction rows generalizing i acc j with
  | nil => simp at hj
  | cons r rest ih =>
    cases h : d (.usersScan i) with
    | some e₀ => exact ⟨e₀, by simp only [scanUsers, h]⟩
    | none =>
      simp only [scanUsers, h]
      cases j with
      | zero =>
        rw [Nat.add_zero, h] at hd
        cases hd
      | succ j =>
        apply ih (i + 1) (acc ++ [r]) j
        · simpa using hj
        · rw [← hd]
          congr 2
          omega

theorem scanUsers_ok (d : Driver) (rows : List User) (i : Nat) (acc : List User)
    (h : ∀ j, j < rows.length → d (.usersScan (i + j)) = none) :
    scanUsers d rows i acc = .ok (acc ++ rows) := by
  induction rows generalizing i acc with
  | nil => simp [scanUsers]
  | cons r rest ih =>
    have h0 : d (.usersScan i) = none := by simpa using h 0 (by simp)
    simp only [scanUsers, h0]
    rw [ih (i + 1) (acc ++ [r])]
    · simp
    · intro j hj
      have := h (j + 1) (by simpa using hj)
      rw [← this]
      congr 2
      omega

theorem getUsers_same (st₁ st₂ : State) (hdb : st₁.db = st₂.db)
    (hf : SameFailures st₁.drv st₂.drv) : (getUsers st₁).1 = (getUsers st₂).1 := by
  unfold getUsers State.querySelectAll
  rcases hf.either .usersQuery with ⟨h₁, h₂⟩ | ⟨e₁, e₂, h₁, h₂⟩
  · simp only [h₁, h₂, State.send_drv, ← hdb]
    rcases scanUsers_same hf st₁.db.rows 0 [] with ⟨e₁, e₂, s₁, s₂⟩ | ⟨us, s₁, s₂⟩
    · simp only [s₁, s₂]
    · simp only [s₁, s₂]
      rcases hf.either .usersErr with ⟨k₁, k₂⟩ | ⟨e₁, e₂, k₁, k₂⟩
      · simp only [k₁, k₂]
      · simp only [k₁, k₂]
  · simp only [h₁, h₂]

theorem getUser_same (st₁ st₂ : State) (hdb : st₁.db = st₂.db)
    (hf : SameFailures st₁.drv st₂.drv) (idStr : String) :
    (getUser st₁ idStr).1 = (getUser st₂ idStr).1 := by
  unfold getUser State.queryRowById
  cases Atoi idStr with
  | none => rfl
  | some id =>
    by_cases hle : id ≤ 0
    · simp only [hle, if_true]
    · simp only [hle, if_false, ← hdb]
      rcases hf.either .userQueryRow with ⟨h₁, h₂⟩ | ⟨e₁, e₂, h₁, h₂⟩
      · simp only [h₁, h₂]
        cases st₁.db.rows.find? (fun r => r.ID == id) <;> rfl
      · simp only [h₁, h₂]

theorem createUser_same (st₁ st₂ : State) (hdb : st₁.db = st₂.db)
    (hf : SameFailures st₁.drv st₂.drv) (body : Option User) :
    (createUser st₁ body).1 = (createUser st₂ body).1 := by
  unfold createUser State.insertReturningId
  cases body with
  | none => rfl
  | some u =>
    by_cases hn : (TrimSpace u.Name).utf8ByteSize = 0
    · simp only [hn, if_true]
    · by_cases he : isValidEmail (TrimSpace u.Email) = true
      · simp only [hn, he, if_false, Bool.not_true, Bool.false_eq_true, ← hdb]
        rcases hf.either .createQueryRow with ⟨h₁, h₂⟩ | ⟨e₁, e₂, h₁, h₂⟩
        · simp only [h₁, h₂]
          by_cases hmax : maxSerial < st₁.db.lastval + 1
          · simp only [hmax, if_true]
          · simp only [hmax, if_false]
            by_cases hany : (st₁.db.rows.any
                fun r => r.ID == ((st₁.db.lastval + 1 : Nat) : Int)) = true
            · simp only [hany, if_true]
            · simp only [hany, if_false, Bool.false_eq_true]
        · simp only [h₁, h₂]
      · simp only [hn, he, if_false, Bool.not_false, if_true]

theorem updateUser_same (st₁ st₂ : State) (hdb : st₁.db = st₂.db)
    (hf : SameFailures st₁.drv st₂.drv) (body : Option User) (idStr : String) :
    (updateUser st₁ body idStr).1 = (updateUser st₂ body idStr).1 := by
  unfold updateUser State.execUpdate
  cases body with
  | none => rfl
  | some u =>
    by_cases hn : TrimSpace u.Name = ""
    · simp only [hn, if_true]
    · by_cases he : isValidEmail (TrimSpace u.Email) = true
      · simp only [hn, he, if_false, Bool.not_true, Bool.false_eq_true]
        cases Atoi idStr with
        | none => rfl
        | some id =>
          by_cases hle : id ≤ 0
          · simp only [hle, if_true]
          · simp only [hle, if_false, ← hdb]
            rcases hf.either .updateExec with ⟨h₁, h₂⟩ | ⟨e₁, e₂, h₁, h₂⟩
            · simp only [h₁, h₂, State.send_drv]
              rcases hf.either .updateRowsAffected with ⟨k₁, k₂⟩ | ⟨e₁, e₂, k₁, k₂⟩
              · simp only [k₁, k₂]
                by_cases h0 : st₁.db.rows.countP (fun r => r.ID == id) = 0
                · simp only [h0, if_true]
                · simp only [h0, if_false]
              · simp only [k₁, k₂]
            · simp only [h₁, h₂]
      · simp only [hn, he, if_false, Bool.not_false, if_true]

theorem deleteUser_same (st₁ st₂ : State) (hdb : st₁.db = st₂.db)
    (hf : SameFailures st₁.drv st₂.drv) (idStr : String) :
    (deleteUser st₁ idStr).1 = (deleteUser st₂ idStr).1 := by
  unfold deleteUser State.queryRowById
  cases Atoi idStr with
  | none => rfl
  | some id =>
    by_cases hle : id ≤ 0
    · simp only [hle, if_true]
    · simp only [hle, if_false, ← hdb]
      rcases hf.either .deleteQueryRow with ⟨h₁, h₂⟩ | ⟨e₁, e₂, h₁, h₂⟩
      · simp only [h₁, h₂]
        cases st₁.db.rows.find? (fun r => r.ID == id) with
        | none => rfl
        | some r =>
          simp only [State.execDelete, State.send_drv]
          rcases hf.either .deleteExec with ⟨k₁, k₂⟩ | ⟨e₁, e₂, k₁, k₂⟩
          · simp only [k₁, k₂]
          · simp only [k₁, k₂]
      · simp only [h₁, h₂]

/-- C10. No detail of a storage failure reaches the client. Two runs of a handler on
the same table and the same request, whose drivers fail the same calls with
whatever error texts, give the same response. A failing store call gives status 500
and a body `{"error": m}` where `m` is fixed by the call site: `Error querying
users`, `Error reading users`, `Error iterating users` (list), `Internal server
error` (get, and the lookup of delete), `Database insert error` (create), `Error
updating user` (update, for the statement and for the affected-row count), `Error
deleting user` (delete). -/
theorem C10_no_detail_leak (st₁ st₂ : State) (hdb : st₁.db = st₂.db)
    (hf : SameFailures st₁.drv st₂.drv) :
    ((getUsers st₁).1 = (getUsers st₂).1 ∧
      (∀ idStr, (getUser st₁ idStr).1 = (getUser st₂ idStr).1) ∧
      (∀ body, (createUser st₁ body).1 = (createUser st₂ body).1) ∧
      (∀ body idStr, (updateUser st₁ body idStr).1 = (updateUser st₂ body idStr).1) ∧
      (∀ idStr, (deleteUser st₁ idStr).1 = (deleteUser st₂ idStr).1)) ∧
    (∀ e, st₁.drv .usersQuery = some e →
      (getUsers st₁).1 = ⟨500, .error "Error querying users"⟩) ∧
    (∀ i e, st₁.drv .usersQuery = none → i < st₁.db.rows.length →
      st₁.drv (.usersScan i) = some e →
      (getUsers st₁).1 = ⟨500, .error "Error reading users"⟩) ∧
    (∀ e, st₁.drv .usersQuery = none →
      (∀ i, i < st₁.db.rows.length → st₁.drv (.usersScan i) = none) →
      st₁.drv .usersErr = some e →
      (getUsers st₁).1 = ⟨500, .error "Error iterating users"⟩) ∧
    (∀ idStr id e, Atoi idStr = some id → 0 < id → st₁.drv .userQueryRow = some e →
      (getUser st₁ idStr).1 = ⟨500, .error "Internal server error"⟩) ∧
    (∀ u e, ¬ Blank u.Name → isValidEmail (TrimSpace u.Email) = true →
      (st₁.drv .createQueryRow = some e ∨
        (st₁.insertReturningId u.Name u.Email).1 = .error e) →
      (createUser st₁ (some u)).1 = ⟨500, .error "Database insert error"⟩) ∧
    (∀ u idStr id e, ¬ Blank u.Name → isValidEmail (TrimSpace u.Email) = true →
      Atoi idStr = some id → 0 < id →
      (st₁.drv .updateExec = some e ∨ st₁.drv .updateRowsAffected = some e) →
      (updateUser st₁ (some u) idStr).1 = ⟨500, .error "Error updating user"⟩) ∧
    (∀ idStr id e, Atoi idStr = some id → 0 < id → st₁.drv .deleteQueryRow = some e →
      (deleteUser st₁ idStr).1 = ⟨500, .error "Internal server error"⟩) ∧
    (∀ idStr id e, Atoi idStr = some id → 0 < id → st₁.drv .deleteQueryRow = none →
      (∃ r ∈ st₁.db.rows, r.ID = id) → st₁.drv .deleteExec = some e →
      (deleteUser st₁ idStr).1 = ⟨500, .error "Error deleting user"⟩) := by
  refine ⟨⟨getUsers_same st₁ st₂ hdb hf, getUser_same st₁ st₂ hdb hf,
    createUser_same st₁ st₂ hdb hf, updateUser_same st₁ st₂ hdb hf,
    deleteUser_same st₁ st₂ hdb hf⟩, ?_, ?_, ?_, ?_, ?_, ?_, ?_, ?_⟩
  · intro e h
    simp only [getUsers, State.querySelectAll, h]
  · intro i e hq hi hs
    obtain ⟨e', he'⟩ := scanUsers_fault st₁.drv st₁.db.rows 0 [] i hi e (by simpa using hs)
    simp only [getUsers, State.querySelectAll, hq, State.send_drv, he']
  · intro e hq hscan hr
    have hok := scanUsers_ok st₁.drv st₁.db.rows 0 [] (fun j hj => by simpa using hscan j hj)
    simp only [getUsers, State.querySelectAll, hq, State.send_drv, hok, hr]
  · intro idStr id e hid hpos hd
    have hle : ¬ id ≤ 0 := not_le.mpr hpos
    simp only [getUser, hid, hle, if_false, State.queryRowById, hd]
  · intro u e hn he hfail
    have hname : ¬ (TrimSpace u.Name).utf8ByteSize = 0 := fun h =>
      hn ((TrimSpace_eq_empty_iff u.Name).mp ((utf8ByteSize_eq_zero_iff _).mp h))
    have herr : ∃ e', (st₁.insertReturningId u.Name u.Email).1 = .error e' := by
      rcases hfail with hd | herr
      · exact ⟨e, by simp only [State.insertReturningId, hd]⟩
      · exact ⟨e, herr⟩
    obtain ⟨e', herr⟩ := herr
    simp only [createUser, hname, he, if_false, Bool.not_true, Bool.false_eq_true]
    revert herr
    cases st₁.insertReturningId u.Name u.Email with
    | mk res st' =>
      intro herr
      dsimp only at herr
      subst herr
      rfl
  · intro u idStr id e hn he hid hpos hfail
    have hname : TrimSpace u.Name ≠ "" := fun h => hn ((TrimSpace_eq_empty_iff u.Name).mp h)
    have hle : ¬ id ≤ 0 := not_le.mpr hpos
    simp only [updateUser, hname, he, hid, hle, if_false, Bool.not_true, Bool.false_eq_true,
      State.execUpdate]
    cases hx : st₁.drv .updateExec with
    | some e₀ => rfl
    | none =>
      rcases hfail with hd | hd
      · rw [hx] at hd
        cases hd
      · simp only [State.send_drv, hd]
  · intro idStr id e hid hpos hd
    have hle : ¬ id ≤ 0 := not_le.mpr hpos
    simp only [deleteUser, hid, hle, if_false, State.queryRowById, hd]
  · intro idStr id e hid hpos hq hrow hd
    have hle : ¬ id ≤ 0 := not_le.mpr hpos
    obtain ⟨r₀, hr₀, hr₀id⟩ := hrow
    have hfind : ∃ r, st₁.db.rows.find? (fun r => r.ID == id) = some r := by
      cases hfd : st₁.db.rows.find? (fun r => r.ID == id) with
      | some r => exact ⟨r, rfl⟩
      | none =>
        rw [List.find?_eq_none] at hfd
        exact absurd (by simpa using hr₀id) (hfd r₀ hr₀)
    obtain ⟨r₁, hr₁⟩ := hfind
    simp only [deleteUser, hid, hle, if_false, State.queryRowById, hq, hr₁, State.execDelete,
      State.send_drv, hd]

/-- C10 on a one-row table: the lookup of `GET /users/1` fails with two different
error texts; both runs answer the same 500 `Internal server error`, and each text
goes to the log of its run only. -/
theorem C10_no_detail_leak_witness :
    (getUser (State.start ⟨[⟨1, "Ann", "ann@b.c"⟩], 1⟩
        (fun c => if c = .userQueryRow then some "pq: password authentication failed" else none))
      "1").1 =
    (getUser (State.start ⟨[⟨1, "Ann", "ann@b.c"⟩], 1⟩
        (fun c => if c = .userQueryRow then some "dial tcp 10.0.0.5:5432: i/o timeout" else none))
      "1").1 ∧
    (getUser (State.start ⟨[⟨1, "Ann", "ann@b.c"⟩], 1⟩
        (fun c => if c = .userQueryRow then some "pq: password authentication failed" else none))
      "1").1 = ⟨500, .error "Internal server error"⟩ ∧
    (getUser (State.start ⟨[⟨1, "Ann", "ann@b.c"⟩], 1⟩
        (fun c => if c = .userQueryRow then some "pq: password authentication failed" else none))
      "1").2.log = ["Error querying user: pq: password authentication failed"] :=
  have h := C10_no_detail_leak
    (State.start ⟨[⟨1, "Ann", "ann@b.c"⟩], 1⟩
      (fun c => if c = .userQueryRow then some "pq: password authentication failed" else none))
    (State.start ⟨[⟨1, "Ann", "ann@b.c"⟩], 1⟩
      (fun c => if c = .userQueryRow then some "dial tcp 10.0.0.5:5432: i/o timeout" else none))
    rfl (fun c => by
      show (if c = Call.userQueryRow then some _ else none).isSome =
        (if c = Call.userQueryRow then some _ else none).isSome
      split <;> rfl)
  ⟨h.1.2.1 "1", h.2.2.2.2.1 "1" 1 _ (by decide) (by decide) rfl, by decide⟩

end UsersManager
